import Mathlib

/-!
A deadline scheduler built on `pthread_cond_timedwait` (05_timer)

Shallow embedding of `src/05_timer/src/timer.cpp` and `include/timer.h`.

* `long` and `time_t` values are integers (`Int`); the arithmetic of the
  constructor is the C++ one (`/` and `%` truncate toward zero), without overflow.
* A `TimerCallback` function pointer is a natural number, `0` being `nullptr`;
  the `void *` argument is a natural number as well.
* `const struct timespec *` arguments are `Option Timespec`, `none` being `nullptr`.
* `std::set<TimerCallbackEntity>` is the list of its elements in iteration order;
  `std::map<TimerCallback, TimerCallbackEntity>` is the list of its key/value pairs
  in key order.
* `clock_gettime(CLOCK_MONOTONIC, _)` is an input: the constructor receives the
  reading, and `HandleCallbacks` receives the sequence of readings of its loop
  (`clock i` is the reading taken in iteration `i`).
* Calling a callback is recorded in a trace of `(callback, data)` pairs.
-/

namespace Timer05

/-- The `struct timespec` of `<time.h>`. -/
structure Timespec where
  tv_sec : Int
  tv_nsec : Int
deriving DecidableEq, Repr

/-- The function `LaterThan` of timer.cpp, lines 11-23. -/
def LaterThan (now deadline : Option Timespec) : Bool :=
  match now, deadline with
  | none, _ => false
  | _, none => false
  | some n, some d =>
    if n.tv_sec > d.tv_sec then true
    else if n.tv_sec = d.tv_sec ∧ n.tv_nsec ≥ d.tv_nsec then true
    else false

/-- The class `TimerCallbackEntity` of timer.h, lines 28-52. -/
structure TimerCallbackEntity where
  callback_ : Nat
  data_ : Nat
  interval_ms_ : Int
  interval_ns_ : Int
  deadline_ : Timespec
deriving DecidableEq, Repr

namespace TimerCallbackEntity

/-- The constructor of timer.cpp, lines 36-49; `now` is what `clock_gettime` stores. -/
def construct (now : Timespec) (cb : Nat) (data : Nat) (interval_ms : Int)
    (interval_ns : Int) : TimerCallbackEntity :=
  let deadline :=
    if interval_ms ≠ 0 then
      { tv_sec := now.tv_sec + Int.tdiv interval_ms 1000,
        tv_nsec := now.tv_nsec + (Int.tmod interval_ms 1000) * 1000000 : Timespec }
    else if interval_ns ≠ 0 then
      { tv_sec := now.tv_sec + Int.tdiv interval_ns 1000000000,
        tv_nsec := now.tv_nsec + Int.tmod interval_ns 1000000000 : Timespec }
    else now
  { callback_ := cb, data_ := data, interval_ms_ := interval_ms,
    interval_ns_ := interval_ns, deadline_ := deadline }

/-- The method `IsValid` of timer.cpp, lines 66-71. -/
def IsValid (e : TimerCallbackEntity) : Bool :=
  if e.interval_ms_ < 0 ∨ e.interval_ns_ < 0 ∨ e.callback_ = 0 ∨
      (e.interval_ms_ = 0 ∧ e.interval_ns_ = 0) then false
  else true

/-- The method `operator<` of timer.cpp, lines 76-78. -/
def lt (a other : TimerCallbackEntity) : Bool :=
  !LaterThan (some a.deadline_) (some other.deadline_)

end TimerCallbackEntity

/-! ### The two containers -/

/-- `std::set::insert`: the element goes to its place in the order given by `operator<`,
unless an equivalent element (neither smaller than the other) is already there. -/
def setInsert : List TimerCallbackEntity → TimerCallbackEntity → List TimerCallbackEntity
  | [], e => [e]
  | x :: xs, e =>
    if e.lt x then e :: x :: xs
    else if x.lt e then x :: setInsert xs e
    else x :: xs

/-- `std::set::erase(key)`: the elements equivalent to the key are removed. -/
def setErase (s : List TimerCallbackEntity) (e : TimerCallbackEntity) :
    List TimerCallbackEntity :=
  s.filter (fun x => x.lt e || e.lt x)

/-- `std::map::find`: the value stored under a key, `none` standing for `end()`. -/
def mapFind : List (Nat × TimerCallbackEntity) → Nat → Option TimerCallbackEntity
  | [], _ => none
  | (k, v) :: m, cb => if k = cb then some v else mapFind m cb

/-- `std::map::operator[]` followed by an assignment: `m[cb] = v`. -/
def mapAssign : List (Nat × TimerCallbackEntity) → Nat → TimerCallbackEntity →
    List (Nat × TimerCallbackEntity)
  | [], cb, v => [(cb, v)]
  | (k, w) :: m, cb, v =>
    if cb < k then (cb, v) :: (k, w) :: m
    else if cb = k then (cb, v) :: m
    else (k, w) :: mapAssign m cb v

/-- `std::map::erase(key)`. -/
def mapErase (m : List (Nat × TimerCallbackEntity)) (cb : Nat) :
    List (Nat × TimerCallbackEntity) :=
  m.filter (fun kv => kv.1 ≠ cb)

/-! ### The scheduler -/

/-- The data members of `MxTimer` (timer.h, lines 74-79) that the operations read and write. -/
structure MxTimer where
  cbe_set_ : List TimerCallbackEntity
  cbe_map_ : List (Nat × TimerCallbackEntity)
  cbe_changed_ : Bool
deriving DecidableEq, Repr

namespace MxTimer

/-- The state built by the constructor `MxTimer::MxTimer` (timer.cpp, line 110). -/
def empty : MxTimer :=
  { cbe_set_ := [], cbe_map_ := [], cbe_changed_ := false }

/-- The method `MxTimer::AddCallback` of timer.cpp, lines 133-152: result and new state. -/
def AddCallback (t : MxTimer) (cbe : TimerCallbackEntity) : Bool × MxTimer :=
  if !cbe.IsValid then (false, t)
  else
    let cb := cbe.callback_
    if (mapFind t.cbe_map_ cb).isSome then (false, t)
    else
      (true, { cbe_set_ := setInsert t.cbe_set_ cbe,
               cbe_map_ := mapAssign t.cbe_map_ cb cbe,
               cbe_changed_ := true })

/-- The method `MxTimer::RemoveCallback` of timer.cpp, lines 161-181: result and new state. -/
def RemoveCallback (t : MxTimer) (cb : Nat) : Bool × MxTimer :=
  if cb = 0 then (false, t)
  else
    match mapFind t.cbe_map_ cb with
    | none => (false, t)
    | some cbe =>
      (true, { cbe_set_ := setErase t.cbe_set_ cbe,
               cbe_map_ := mapErase t.cbe_map_ cb,
               cbe_changed_ := true })

/-- The method `MxTimer::GetFirstCallbackEntity` of timer.cpp, lines 188-195. -/
def GetFirstCallbackEntity (t : MxTimer) (now : Timespec) : TimerCallbackEntity :=
  match t.cbe_set_ with
  | [] => TimerCallbackEntity.construct now 0 0 0 0
  | x :: _ => x

/-- The loop of `MxTimer::HandleCallbacks` (timer.cpp, lines 203-213) from iteration `i` on,
with the iterator at the front of `s`: the remaining set, the map and the calls made. -/
def handleLoop (clock : Nat → Timespec) :
    Nat → List TimerCallbackEntity → List (Nat × TimerCallbackEntity) →
      List TimerCallbackEntity × List (Nat × TimerCallbackEntity) × List (Nat × Nat)
  | _, [], m => ([], m, [])
  | i, x :: xs, m =>
    if LaterThan (some (clock i)) (some x.deadline_) then
      let r := handleLoop clock (i + 1) xs (mapErase m x.callback_)
      (r.1, r.2.1, (x.callback_, x.data_) :: r.2.2)
    else (x :: xs, m, [])

/-- The method `MxTimer::HandleCallbacks` of timer.cpp, lines 200-214: the new state and
the calls made, in order, each as `(callback, data)`. -/
def HandleCallbacks (t : MxTimer) (clock : Nat → Timespec) : MxTimer × List (Nat × Nat) :=
  let r := handleLoop clock 0 t.cbe_set_ t.cbe_map_
  ({ cbe_set_ := r.1, cbe_map_ := r.2.1, cbe_changed_ := t.cbe_changed_ }, r.2.2)

end MxTimer

/-- The states reachable from the empty scheduler by the three operations. -/
inductive Reachable : MxTimer → Prop
  | start : Reachable MxTimer.empty
  | add (t : MxTimer) (cbe : TimerCallbackEntity) :
      Reachable t → Reachable (t.AddCallback cbe).2
  | remove (t : MxTimer) (cb : Nat) :
      Reachable t → Reachable (t.RemoveCallback cb).2
  | handle (t : MxTimer) (clock : Nat → Timespec) :
      Reachable t → Reachable (t.HandleCallbacks clock).1

/-- One call on the scheduler. -/
inductive Op where
  | add (cbe : TimerCallbackEntity)
  | remove (cb : Nat)
  | handle (clock : Nat → Timespec)

/-- The state after a call and the callbacks it invoked. -/
def step (t : MxTimer) : Op → MxTimer × List (Nat × Nat)
  | Op.add cbe => ((t.AddCallback cbe).2, [])
  | Op.remove cb => ((t.RemoveCallback cb).2, [])
  | Op.handle clock => t.HandleCallbacks clock

/-- The state after a sequence of calls and all the callbacks invoked on the way. -/
def run (t : MxTimer) : List Op → MxTimer × List (Nat × Nat)
  | [] => (t, [])
  | op :: ops =>
    let r := step t op
    let r2 := run r.1 ops
    (r2.1, r.2 ++ r2.2)

/-- The total number of nanoseconds of a `timespec`. -/
def totalNs (t : Timespec) : Int := t.tv_sec * 1000000000 + t.tv_nsec

/-- A normalized `timespec`: the nanoseconds lie in `[0, 1_000_000_000)`. -/
def Normalized (t : Timespec) : Prop := 0 ≤ t.tv_nsec ∧ t.tv_nsec < 1000000000

instance (t : Timespec) : Decidable (Normalized t) := by
  unfold Normalized; infer_instance

/-- The requested delay of an entity in nanoseconds: the milliseconds when they are
non-zero, the nanoseconds otherwise. -/
def delayNs (interval_ms interval_ns : Int) : Int :=
  if interval_ms ≠ 0 then interval_ms * 1000000 else interval_ns

/-- The deadline `d` is at or before `now` in `(tv_sec, tv_nsec)` order. -/
def AtOrBefore (d now : Timespec) : Prop :=
  d.tv_sec < now.tv_sec ∨ (d.tv_sec = now.tv_sec ∧ d.tv_nsec ≤ now.tv_nsec)

instance (d now : Timespec) : Decidable (AtOrBefore d now) := by
  unfold AtOrBefore; infer_instance

/-- The test of the loop of `HandleCallbacks`: the entity is due at the reading `now`. -/
def dueAt (now : Timespec) (e : TimerCallbackEntity) : Bool :=
  LaterThan (some now) (some e.deadline_)

/-- The entity is not due at the reading `now`: its deadline is strictly later. -/
def pendingAt (now : Timespec) (e : TimerCallbackEntity) : Bool := !dueAt now e

/-- The clock that reads `now` at every iteration. -/
def fixedClock (now : Timespec) : Nat → Timespec := fun _ => now

/-! ### Concrete entities used below -/

/-- Callback 1, 2 ms, constructed at `0 s`. -/
def entA : TimerCallbackEntity := TimerCallbackEntity.construct ⟨0, 0⟩ 1 10 2 0

/-- Callback 2, 1 ms, constructed at `0.001 s`: the same deadline as `entA`. -/
def entB : TimerCallbackEntity := TimerCallbackEntity.construct ⟨0, 1000000⟩ 2 20 1 0

/-- Callback 3, 3 ms, constructed at `0.001 s`: a later deadline. -/
def entC : TimerCallbackEntity := TimerCallbackEntity.construct ⟨0, 1000000⟩ 3 30 3 0

/-- The scheduler after `AddCallback(entA)`. -/
def oneState : MxTimer := (MxTimer.empty.AddCallback entA).2

/-- The scheduler after `AddCallback(entA)` and `AddCallback(entB)`. -/
def tieState : MxTimer := (oneState.AddCallback entB).2

/-- Callback 1, 900 ms, constructed at `0.6 s`. -/
def entLate : TimerCallbackEntity := TimerCallbackEntity.construct ⟨0, 600000000⟩ 1 10 900 0

/-- The keys of the identity-keyed view. -/
def mapKeys (m : List (Nat × TimerCallbackEntity)) : List Nat := m.map Prod.fst

/-- The set is in strictly increasing order of `operator<`. -/
def SetSorted (s : List TimerCallbackEntity) : Prop :=
  s.Pairwise (fun a b => a.lt b = true)

/-- The call recorded when the callback of an entity is invoked. -/
def callOf (e : TimerCallbackEntity) : Nat × Nat := (e.callback_, e.data_)

/-- The entities at the front of `s` that the loop started at iteration `i` finds due. -/
def firedFrom (clock : Nat → Timespec) : Nat → List TimerCallbackEntity → List TimerCallbackEntity
  | _, [] => []
  | i, x :: xs =>
    if LaterThan (some (clock i)) (some x.deadline_) then x :: firedFrom clock (i + 1) xs
    else []

/-- The set is sorted, and each of its entities is valid and is the one the map stores
under its callback. -/
structure Inv (t : MxTimer) : Prop where
  sorted : SetSorted t.cbe_set_
  inMap : ∀ e ∈ t.cbe_set_, mapFind t.cbe_map_ e.callback_ = some e
  valid : ∀ e ∈ t.cbe_set_, e.IsValid = true

/-- The map has one pair for each key, and the entity stored under a key has that key as
its callback. -/
structure MapInv (m : List (Nat × TimerCallbackEntity)) : Prop where
  keys : (mapKeys m).Nodup
  own : ∀ kv ∈ m, kv.2.callback_ = kv.1

/-! ### The worker thread -/

/-- The wake time computed at the top of an iteration of `MxTimer::WorkerThreadEntry`
(timer.cpp, lines 234-241); `now1` is the reading taken by the constructor inside
`GetFirstCallbackEntity`, `now2` the one taken at line 239. -/
def wakeTime (t : MxTimer) (now1 now2 : Timespec) : Timespec :=
  let cbe := t.GetFirstCallbackEntity now1
  if cbe.IsValid then cbe.deadline_
  else { tv_sec := now2.tv_sec + 2, tv_nsec := now2.tv_nsec }

/-- A call of the public interface made by another thread. -/
inductive Call where
  | add (cbe : TimerCallbackEntity)
  | remove (cb : Nat)
deriving DecidableEq

/-- The scheduler after a sequence of public calls. -/
def applyCalls (t : MxTimer) : List Call → MxTimer
  | [] => t
  | Call.add cbe :: cs => applyCalls (t.AddCallback cbe).2 cs
  | Call.remove cb :: cs => applyCalls (t.RemoveCallback cb).2 cs

/-- One call of `pthread_cond_timedwait`: the public calls that other threads make while
the lock is released, and the value it returns. -/
structure WaitEvent where
  calls : List Call
  rc : Int
deriving DecidableEq

/-- The loop of timer.cpp, lines 243-246, fed with the outcomes of its waits: the state and
`rc` at its exit and the number of waits performed; `none` when the thread is still
waiting after the outcomes given. -/
def waitLoop : List WaitEvent → MxTimer → Int → Option (MxTimer × Int × Nat)
  | [], t, rc => if !t.cbe_changed_ ∧ 0 = rc then none else some (t, rc, 0)
  | ev :: evs, t, rc =>
    if !t.cbe_changed_ ∧ 0 = rc then
      match waitLoop evs (applyCalls t ev.calls) ev.rc with
      | none => none
      | some (t1, rc1, n) => some (t1, rc1, n + 1)
    else some (t, rc, 0)

/-- What one iteration of the loop of `WorkerThreadEntry` leaves and did: the scheduler,
the variable `rc`, the wake time it computed, the number of timed waits it performed and
the callbacks it invoked. -/
structure WorkerStep where
  timer : MxTimer
  rc : Int
  tv : Timespec
  waits : Nat
  invoked : List (Nat × Nat)
deriving DecidableEq

/-- One iteration of the loop of `MxTimer::WorkerThreadEntry` (timer.cpp, lines 231-257). -/
def workerIteration (t : MxTimer) (rc : Int) (now1 now2 : Timespec) (evs : List WaitEvent)
    (clock : Nat → Timespec) : Option WorkerStep :=
  let tv := wakeTime t now1 now2
  match waitLoop evs t rc with
  | none => none
  | some (t1, rc1, n) =>
    if t1.cbe_changed_ then
      some { timer := { t1 with cbe_changed_ := false }, rc := rc1, tv := tv, waits := n,
             invoked := [] }
    else
      some { timer := (t1.HandleCallbacks clock).1, rc := rc1, tv := tv, waits := n,
             invoked := (t1.HandleCallbacks clock).2 }

/-- The inputs of one iteration: the clock readings, the outcomes of its waits, and the
public calls made by other threads before the lock is taken again. -/
structure IterInput where
  now1 : Timespec
  now2 : Timespec
  evs : List WaitEvent
  clock : Nat → Timespec
  between : List Call

/-- Successive iterations of the worker loop: the final scheduler and `rc`, and the number
of timed waits of each iteration. -/
def workerRun : List IterInput → MxTimer → Int → Option (MxTimer × Int × List Nat)
  | [], t, rc => some (t, rc, [])
  | inp :: inps, t, rc =>
    match workerIteration t rc inp.now1 inp.now2 inp.evs inp.clock with
    | none => none
    | some r =>
      match workerRun inps (applyCalls r.timer inp.between) r.rc with
      | none => none
      | some (t2, rc2, ws) => some (t2, rc2, r.waits :: ws)

/-- Callback 2, 1000 ms, constructed at `0 s`: due at `1.0 s`, stored as `(1, 0)`. -/
def entSoon : TimerCallbackEntity := TimerCallbackEntity.construct ⟨0, 0⟩ 2 20 1000 0

/-- The scheduler after `AddCallback(entLate)`. -/
def lateState : MxTimer := (MxTimer.empty.AddCallback entLate).2

/-- The scheduler after `AddCallback(entSoon)` and then `AddCallback(entLate)`. -/
def mixState : MxTimer := ((MxTimer.empty.AddCallback entSoon).2.AddCallback entLate).2

/-! ### The comparison of deadlines -/

theorem laterThan_iff (n d : Timespec) :
    LaterThan (some n) (some d) = true ↔ AtOrBefore d n := by
  obtain ⟨ns, nn⟩ := n
  obtain ⟨ds, dn⟩ := d
  simp only [LaterThan, AtOrBefore]
  by_cases h1 : ns > ds
  · rw [if_pos h1]
    exact ⟨fun _ => Or.inl h1, fun _ => rfl⟩
  · rw [if_neg h1]
    by_cases h2 : ns = ds ∧ nn ≥ dn
    · rw [if_pos h2]
      exact ⟨fun _ => Or.inr ⟨h2.1.symm, h2.2⟩, fun _ => rfl⟩
    · rw [if_neg h2]
      constructor
      · intro h; cases h
      · intro h; exfalso; omega

theorem laterThan_eq_false_iff (n d : Timespec) :
    LaterThan (some n) (some d) = false ↔
      n.tv_sec < d.tv_sec ∨ (n.tv_sec = d.tv_sec ∧ n.tv_nsec < d.tv_nsec) := by
  rw [← Bool.not_eq_true, laterThan_iff]
  unfold AtOrBefore
  omega

theorem lt_iff (a b : TimerCallbackEntity) :
    a.lt b = true ↔
      a.deadline_.tv_sec < b.deadline_.tv_sec ∨
        (a.deadline_.tv_sec = b.deadline_.tv_sec ∧
          a.deadline_.tv_nsec < b.deadline_.tv_nsec) := by
  unfold TimerCallbackEntity.lt
  rw [Bool.not_eq_true', laterThan_eq_false_iff]

theorem lt_irrefl (a : TimerCallbackEntity) : a.lt a = false := by
  rw [← Bool.not_eq_true, lt_iff]; omega

theorem lt_trans (a b c : TimerCallbackEntity) (h1 : a.lt b = true) (h2 : b.lt c = true) :
    a.lt c = true := by
  rw [lt_iff] at *; omega

theorem lt_asymm (a b : TimerCallbackEntity) (h1 : a.lt b = true) : b.lt a = false := by
  rw [← Bool.not_eq_true]; rw [lt_iff] at *; omega

/-- Two entities are equivalent for the set exactly when their deadlines are equal. -/
theorem equiv_iff (a b : TimerCallbackEntity) :
    (a.lt b = false ∧ b.lt a = false) ↔ a.deadline_ = b.deadline_ := by
  rw [← Bool.not_eq_true, ← Bool.not_eq_true, lt_iff, lt_iff]
  constructor
  · intro h
    cases ha : a.deadline_ with
    | mk s1 n1 =>
      cases hb : b.deadline_ with
      | mk s2 n2 =>
        rw [ha, hb] at h; simp only at h
        have e1 : s1 = s2 := by omega
        have e2 : n1 = n2 := by omega
        rw [e1, e2]
  · intro h; rw [h]; omega

/-- A deadline that is due stays due for every smaller entity. -/
theorem due_of_lt (now : Timespec) (a b : TimerCallbackEntity) (h : a.lt b = true)
    (hb : LaterThan (some now) (some b.deadline_) = true) :
    LaterThan (some now) (some a.deadline_) = true := by
  rw [laterThan_iff] at *; rw [lt_iff] at h; unfold AtOrBefore at *; omega

/-! ### The containers -/

theorem mem_setInsert (s : List TimerCallbackEntity) (e x : TimerCallbackEntity)
    (h : x ∈ setInsert s e) : x ∈ s ∨ x = e := by
  induction s with
  | nil => simp [setInsert] at h; exact Or.inr h
  | cons y ys ih =>
    simp only [setInsert] at h
    split at h
    · rcases List.mem_cons.mp h with h | h
      · exact Or.inr h
      · exact Or.inl h
    · split at h
      · rcases List.mem_cons.mp h with h | h
        · exact Or.inl (h ▸ List.mem_cons_self _ _)
        · rcases ih h with h | h
          · exact Or.inl (List.mem_cons_of_mem _ h)
          · exact Or.inr h
      · exact Or.inl h

theorem mem_setInsert_of_mem (s : List TimerCallbackEntity) (e x : TimerCallbackEntity)
    (h : x ∈ s) : x ∈ setInsert s e := by
  induction s with
  | nil => cases h
  | cons y ys ih =>
    simp only [setInsert]
    split
    · exact List.mem_cons_of_mem _ h
    · split
      · rcases List.mem_cons.mp h with h | h
        · exact h ▸ List.mem_cons_self _ _
        · exact List.mem_cons_of_mem _ (ih h)
      · exact h

theorem setInsert_sorted (s : List TimerCallbackEntity) (e : TimerCallbackEntity)
    (h : SetSorted s) : SetSorted (setInsert s e) := by
  unfold SetSorted at *
  induction s with
  | nil => simp [setInsert]
  | cons y ys ih =>
    simp only [setInsert]
    have hy := List.pairwise_cons.mp h
    split
    · rename_i hlt
      refine List.pairwise_cons.mpr ⟨?_, h⟩
      intro z hz
      rcases List.mem_cons.mp hz with hz | hz
      · rw [hz]; exact hlt
      · exact lt_trans _ _ _ hlt (hy.1 z hz)
    · split
      · rename_i hlt
        refine List.pairwise_cons.mpr ⟨?_, ih hy.2⟩
        intro z hz
        rcases mem_setInsert _ _ _ hz with hz | hz
        · exact hy.1 z hz
        · rw [hz]; exact hlt
      · exact h

theorem setErase_sorted (s : List TimerCallbackEntity) (e : TimerCallbackEntity)
    (h : SetSorted s) : SetSorted (setErase s e) :=
  List.Pairwise.filter _ h

theorem mem_setErase (s : List TimerCallbackEntity) (e x : TimerCallbackEntity) :
    x ∈ setErase s e ↔ x ∈ s ∧ x.deadline_ ≠ e.deadline_ := by
  unfold setErase
  rw [List.mem_filter]
  have := equiv_iff x e
  constructor
  · rintro ⟨h1, h2⟩
    refine ⟨h1, fun hd => ?_⟩
    have := this.mpr hd
    simp [this.1, this.2] at h2
  · rintro ⟨h1, h2⟩
    refine ⟨h1, ?_⟩
    by_contra hc
    simp only [Bool.or_eq_true, not_or, Bool.not_eq_true] at hc
    exact h2 (this.mp hc)

theorem mapFind_mapAssign (m : List (Nat × TimerCallbackEntity)) (cb k : Nat)
    (v : TimerCallbackEntity) :
    mapFind (mapAssign m cb v) k = if cb = k then some v else mapFind m k := by
  induction m with
  | nil => simp [mapAssign, mapFind]
  | cons p m ih =>
    obtain ⟨k1, w⟩ := p
    simp only [mapAssign]
    split
    · simp [mapFind]
    · split
      · rename_i h1 h2
        subst h2
        simp only [mapFind]
        split <;> simp_all
      · rename_i h1 h2
        simp only [mapFind, ih]
        by_cases hk : k1 = k
        · have : ¬ cb = k := fun h => h2 (h.trans hk.symm)
          simp [hk, this]
        · simp [hk]

theorem mapFind_mapErase (m : List (Nat × TimerCallbackEntity)) (cb k : Nat) :
    mapFind (mapErase m cb) k = if cb = k then none else mapFind m k := by
  induction m with
  | nil => simp [mapErase, mapFind]
  | cons p m ih =>
    obtain ⟨k1, w⟩ := p
    unfold mapErase at *
    by_cases h : k1 = cb
    · subst h
      simp only [List.filter, ne_eq, not_true_eq_false, decide_False, mapFind]
      rw [ih]
      by_cases hk : k1 = k <;> simp [hk]
    · have hd : decide (k1 ≠ cb) = true := by simp [h]
      simp only [List.filter, hd, mapFind]
      rw [ih]
      by_cases hk : k1 = k
      · have : ¬ cb = k := fun hc => h (hk.trans hc.symm)
        simp [hk, this]
      · simp [hk]

/-! ### The fire-processing loop -/

theorem handleLoop_trace (clock : Nat → Timespec) (i : Nat) (s : List TimerCallbackEntity)
    (m : List (Nat × TimerCallbackEntity)) :
    (MxTimer.handleLoop clock i s m).2.2 = (firedFrom clock i s).map callOf := by
  induction s generalizing i m with
  | nil => rfl
  | cons x xs ih =>
    simp only [MxTimer.handleLoop, firedFrom]
    split
    · simp [ih, callOf]
    · rfl

theorem handleLoop_set (clock : Nat → Timespec) (i : Nat) (s : List TimerCallbackEntity)
    (m : List (Nat × TimerCallbackEntity)) :
    s = firedFrom clock i s ++ (MxTimer.handleLoop clock i s m).1 := by
  induction s generalizing i m with
  | nil => rfl
  | cons x xs ih =>
    simp only [MxTimer.handleLoop, firedFrom]
    split
    · simp only [List.cons_append]
      exact congrArg _ (ih (i + 1) _)
    · rfl

theorem handleLoop_map (clock : Nat → Timespec) (i : Nat) (s : List TimerCallbackEntity)
    (m : List (Nat × TimerCallbackEntity)) (k : Nat) :
    mapFind (MxTimer.handleLoop clock i s m).2.1 k =
      if k ∈ (firedFrom clock i s).map (fun e => e.callback_) then none else mapFind m k := by
  induction s generalizing i m with
  | nil => simp [MxTimer.handleLoop, firedFrom]
  | cons x xs ih =>
    simp only [MxTimer.handleLoop, firedFrom]
    split
    · simp only [ih, mapFind_mapErase, List.map_cons, List.mem_cons]
      by_cases h1 : x.callback_ = k
      · simp [h1]
      · have h2 : ¬ k = x.callback_ := fun h => h1 h.symm
        simp [h1, h2]
    · simp

/-- The front of the remaining set is not due at the reading of the last iteration. -/
theorem handleLoop_stop (clock : Nat → Timespec) (i : Nat) (s : List TimerCallbackEntity)
    (m : List (Nat × TimerCallbackEntity)) :
    (MxTimer.handleLoop clock i s m).1 = [] ∨
      ∃ x xs, (MxTimer.handleLoop clock i s m).1 = x :: xs ∧
        LaterThan (some (clock (i + (firedFrom clock i s).length))) (some x.deadline_) = false := by
  induction s generalizing i m with
  | nil => exact Or.inl rfl
  | cons x xs ih =>
    simp only [MxTimer.handleLoop, firedFrom]
    split
    · have := ih (i + 1) (mapErase m x.callback_)
      simp only [List.length_cons]
      rw [show i + ((firedFrom clock (i + 1) xs).length + 1) =
        i + 1 + (firedFrom clock (i + 1) xs).length by omega]
      exact this
    · rename_i h
      refine Or.inr ⟨x, xs, rfl, ?_⟩
      simpa using h

/-- Every fired entity was due at the reading of its own iteration. -/
theorem firedFrom_due (clock : Nat → Timespec) (i : Nat) (s : List TimerCallbackEntity)
    (j : Nat) (e : TimerCallbackEntity) (h : (firedFrom clock i s)[j]? = some e) :
    LaterThan (some (clock (i + j))) (some e.deadline_) = true := by
  induction s generalizing i j with
  | nil => simp [firedFrom] at h
  | cons x xs ih =>
    simp only [firedFrom] at h
    split at h
    · rename_i hx
      cases j with
      | zero =>
        simp only [List.getElem?_cons_zero, Option.some.injEq] at h
        subst h; simpa using hx
      | succ j =>
        simp only [List.getElem?_cons_succ] at h
        have := ih (i + 1) j h
        rw [show i + (j + 1) = i + 1 + j by omega]
        exact this
    · simp at h

/-- With a clock that does not move and a sorted set, the loop fires exactly the due
entities. -/
theorem firedFrom_fixed (now : Timespec) (i : Nat) (s : List TimerCallbackEntity)
    (hs : SetSorted s) :
    firedFrom (fixedClock now) i s = s.filter (dueAt now) := by
  induction s generalizing i with
  | nil => rfl
  | cons x xs ih =>
    have hx := List.pairwise_cons.mp hs
    simp only [firedFrom, fixedClock]
    by_cases hd : dueAt now x = true
    · rw [List.filter_cons_of_pos hd]
      unfold dueAt at hd
      rw [if_pos hd]
      exact congrArg _ (ih (i + 1) hx.2)
    · rw [List.filter_cons_of_neg hd]
      have hd2 : ¬ LaterThan (some now) (some x.deadline_) = true := hd
      rw [if_neg hd2]
      symm
      rw [List.filter_eq_nil_iff]
      intro y hy hdy
      exact hd (due_of_lt now x y (hx.1 y hy) hdy)

theorem handleLoop_fixed_set (now : Timespec) (i : Nat) (s : List TimerCallbackEntity)
    (m : List (Nat × TimerCallbackEntity)) (hs : SetSorted s) :
    (MxTimer.handleLoop (fixedClock now) i s m).1 = s.filter (pendingAt now) := by
  induction s generalizing i m with
  | nil => rfl
  | cons x xs ih =>
    have hx := List.pairwise_cons.mp hs
    simp only [MxTimer.handleLoop, fixedClock]
    by_cases hd : dueAt now x = true
    · have hn : ¬ (pendingAt now x = true) := by simp [pendingAt, hd]
      rw [List.filter_cons_of_neg hn]
      unfold dueAt at hd
      rw [if_pos hd]
      exact ih (i + 1) _ hx.2
    · have hn : pendingAt now x = true := by simpa [pendingAt] using hd
      rw [List.filter_cons_of_pos hn]
      have hd2 : ¬ LaterThan (some now) (some x.deadline_) = true := hd
      rw [if_neg hd2]
      show x :: xs = x :: List.filter (pendingAt now) xs
      congr 1
      symm
      rw [List.filter_eq_self]
      intro y hy
      cases hdy : dueAt now y with
      | false => simp [pendingAt, hdy]
      | true => exact absurd (due_of_lt now x y (hx.1 y hy) hdy) hd

/-! ### The invariant of the reachable states -/

theorem inv_empty : Inv MxTimer.empty :=
  ⟨List.Pairwise.nil, fun _ h => (by cases h), fun _ h => (by cases h)⟩

theorem addCallback_cases (t : MxTimer) (cbe : TimerCallbackEntity) :
    (t.AddCallback cbe = (false, t) ∧
      ¬ (cbe.IsValid = true ∧ mapFind t.cbe_map_ cbe.callback_ = none)) ∨
    (cbe.IsValid = true ∧ mapFind t.cbe_map_ cbe.callback_ = none ∧
      t.AddCallback cbe = (true, { cbe_set_ := setInsert t.cbe_set_ cbe,
                                    cbe_map_ := mapAssign t.cbe_map_ cbe.callback_ cbe,
                                    cbe_changed_ := true })) := by
  unfold MxTimer.AddCallback
  cases hv : cbe.IsValid with
  | false => left; simp
  | true =>
    cases hf : mapFind t.cbe_map_ cbe.callback_ with
    | none => right; simp [hf]
    | some v => left; simp [hf]

theorem removeCallback_cases (t : MxTimer) (cb : Nat) :
    (t.RemoveCallback cb = (false, t) ∧ (cb = 0 ∨ mapFind t.cbe_map_ cb = none)) ∨
    (cb ≠ 0 ∧ ∃ cbe, mapFind t.cbe_map_ cb = some cbe ∧
      t.RemoveCallback cb = (true, { cbe_set_ := setErase t.cbe_set_ cbe,
                                     cbe_map_ := mapErase t.cbe_map_ cb,
                                     cbe_changed_ := true })) := by
  unfold MxTimer.RemoveCallback
  by_cases h0 : cb = 0
  · left; simp [h0]
  · cases hf : mapFind t.cbe_map_ cb with
    | none => left; simp [h0]
    | some v => right; exact ⟨h0, v, rfl, by simp [h0]⟩

theorem inv_add (t : MxTimer) (cbe : TimerCallbackEntity) (h : Inv t) :
    Inv (t.AddCallback cbe).2 := by
  rcases addCallback_cases t cbe with ⟨he, _⟩ | ⟨hv, hf, he⟩
  · rw [he]; exact h
  · rw [he]
    refine ⟨setInsert_sorted _ _ h.sorted, ?_, ?_⟩
    · intro e hm
      simp only [mapFind_mapAssign]
      rcases mem_setInsert _ _ _ hm with hm | hm
      · have h1 := h.inMap e hm
        have : ¬ cbe.callback_ = e.callback_ := by
          intro hc; rw [← hc, hf] at h1; cases h1
        rw [if_neg this]; exact h1
      · subst hm; simp
    · intro e hm
      rcases mem_setInsert _ _ _ hm with hm | hm
      · exact h.valid e hm
      · subst hm; exact hv

theorem inv_remove (t : MxTimer) (cb : Nat) (h : Inv t) : Inv (t.RemoveCallback cb).2 := by
  rcases removeCallback_cases t cb with ⟨he, _⟩ | ⟨_, v, hf, he⟩
  · rw [he]; exact h
  · rw [he]
    refine ⟨setErase_sorted _ _ h.sorted, ?_, ?_⟩
    · intro e hm
      have hm2 := (mem_setErase _ _ _).mp hm
      have h1 := h.inMap e hm2.1
      simp only [mapFind_mapErase]
      have : ¬ cb = e.callback_ := by
        intro hc; rw [← hc, hf] at h1
        have : v = e := Option.some.inj h1
        exact hm2.2 (by rw [this])
      rw [if_neg this]; exact h1
    · intro e hm
      exact h.valid e ((mem_setErase _ _ _).mp hm).1

theorem inv_handle (t : MxTimer) (clock : Nat → Timespec) (h : Inv t) :
    Inv (t.HandleCallbacks clock).1 := by
  have hsplit := handleLoop_set clock 0 t.cbe_set_ t.cbe_map_
  have hsorted := h.sorted
  unfold SetSorted at hsorted
  rw [hsplit, List.pairwise_append] at hsorted
  have hmem : ∀ e ∈ (MxTimer.handleLoop clock 0 t.cbe_set_ t.cbe_map_).1, e ∈ t.cbe_set_ := by
    intro e he; rw [hsplit]; exact List.mem_append_right _ he
  refine ⟨hsorted.2.1, ?_, fun e he => h.valid e (hmem e he)⟩
  intro e he
  show mapFind (MxTimer.handleLoop clock 0 t.cbe_set_ t.cbe_map_).2.1 e.callback_ = some e
  rw [handleLoop_map]
  have : ¬ e.callback_ ∈ (firedFrom clock 0 t.cbe_set_).map (fun e => e.callback_) := by
    intro hc
    obtain ⟨f, hf, hfc⟩ := List.mem_map.mp hc
    have h1 := h.inMap f (by rw [hsplit]; exact List.mem_append_left _ hf)
    have h2 := h.inMap e (hmem e he)
    rw [hfc, h2] at h1
    have hfe : e = f := Option.some.inj h1
    have hlt := hsorted.2.2 f hf e he
    rw [hfe, lt_irrefl] at hlt
    cases hlt
  rw [if_neg this]
  exact h.inMap e (hmem e he)

theorem reachable_inv (t : MxTimer) (h : Reachable t) : Inv t := by
  induction h with
  | start => exact inv_empty
  | add t cbe _ ih => exact inv_add t cbe ih
  | remove t cb _ ih => exact inv_remove t cb ih
  | handle t clock _ ih => exact inv_handle t clock ih

theorem mapFind_eq_none_iff (m : List (Nat × TimerCallbackEntity)) (k : Nat) :
    mapFind m k = none ↔ k ∉ mapKeys m := by
  induction m with
  | nil => simp [mapFind, mapKeys]
  | cons p m ih =>
    obtain ⟨k1, w⟩ := p
    unfold mapKeys at *
    simp only [mapFind, List.map_cons, List.mem_cons, not_or]
    by_cases h : k1 = k
    · simp [h]
    · have h2 : ¬ k = k1 := fun hc => h hc.symm
      simp [h, h2, ih]

theorem reachable_oneState : Reachable oneState :=
  Reachable.add _ entA Reachable.start

theorem reachable_tieState : Reachable tieState :=
  Reachable.add _ entB reachable_oneState

/-! ### Cancellation -/

theorem step_inv (t : MxTimer) (op : Op) (h : Inv t) : Inv (step t op).1 := by
  cases op with
  | add cbe => exact inv_add t cbe h
  | remove cb => exact inv_remove t cb h
  | handle clock => exact inv_handle t clock h

/-- A callback that is not a key of the map stays out of it, as long as no valid entity
with that callback is added. -/
theorem step_absent (t : MxTimer) (op : Op) (cb : Nat)
    (hop : ∀ cbe, op = Op.add cbe → cbe.callback_ = cb → cbe.IsValid = false)
    (h : mapFind t.cbe_map_ cb = none) : mapFind (step t op).1.cbe_map_ cb = none := by
  cases op with
  | add cbe =>
    simp only [step]
    rcases addCallback_cases t cbe with ⟨he, _⟩ | ⟨hv, _, he⟩
    · rw [he]; exact h
    · rw [he]
      simp only [mapFind_mapAssign]
      have : ¬ cbe.callback_ = cb := by
        intro hc
        have := hop cbe rfl hc
        rw [hv] at this; cases this
      rw [if_neg this]; exact h
  | remove k =>
    simp only [step]
    rcases removeCallback_cases t k with ⟨he, _⟩ | ⟨_, v, _, he⟩
    · rw [he]; exact h
    · rw [he]
      simp only [mapFind_mapErase]
      split
      · rfl
      · exact h
  | handle clock =>
    show mapFind (MxTimer.handleLoop clock 0 t.cbe_set_ t.cbe_map_).2.1 cb = none
    rw [handleLoop_map]
    split
    · rfl
    · exact h

/-- A call invokes only callbacks that are keys of the map. -/
theorem step_trace (t : MxTimer) (op : Op) (cb : Nat) (hi : Inv t)
    (h : mapFind t.cbe_map_ cb = none) : ∀ c ∈ (step t op).2, c.1 ≠ cb := by
  cases op with
  | add cbe => intro c hc; cases hc
  | remove k => intro c hc; cases hc
  | handle clock =>
    intro c hc
    have hc2 : c ∈ (MxTimer.handleLoop clock 0 t.cbe_set_ t.cbe_map_).2.2 := hc
    rw [handleLoop_trace] at hc2
    obtain ⟨e, he, hec⟩ := List.mem_map.mp hc2
    have hmem : e ∈ t.cbe_set_ := by
      rw [handleLoop_set clock 0 t.cbe_set_ t.cbe_map_]
      exact List.mem_append_left _ he
    have h1 := hi.inMap e hmem
    intro hcb
    rw [← hec] at hcb
    simp only [callOf] at hcb
    rw [hcb, h] at h1
    cases h1

theorem run_absent (t : MxTimer) (ops : List Op) (cb : Nat) (hi : Inv t)
    (h : mapFind t.cbe_map_ cb = none)
    (hops : ∀ cbe, Op.add cbe ∈ ops → cbe.callback_ = cb → cbe.IsValid = false) :
    ∀ c ∈ (run t ops).2, c.1 ≠ cb := by
  induction ops generalizing t with
  | nil => intro c hc; cases hc
  | cons op ops ih =>
    intro c hc
    simp only [run] at hc
    have hop : ∀ cbe, op = Op.add cbe → cbe.callback_ = cb → cbe.IsValid = false := by
      intro cbe he; exact hops cbe (he ▸ List.mem_cons_self _ _)
    rcases List.mem_append.mp hc with hc | hc
    · exact step_trace t op cb hi h c hc
    · exact ih (step t op).1 (step_inv t op hi) (step_absent t op cb hop h)
        (fun cbe hm => hops cbe (List.mem_cons_of_mem _ hm)) c hc

theorem removeCallback_absent (t : MxTimer) (cb : Nat) (h : (t.RemoveCallback cb).1 = true) :
    mapFind (t.RemoveCallback cb).2.cbe_map_ cb = none := by
  rcases removeCallback_cases t cb with ⟨he, _⟩ | ⟨_, v, _, he⟩
  · rw [he] at h; cases h
  · rw [he]; simp [mapFind_mapErase]

/-- C1: in a reachable scheduler, once `RemoveCallback(cb)` has returned true, no later
call invokes `cb`: whatever `AddCallback`, `RemoveCallback` and `HandleCallbacks` calls
follow (at any clock readings), as long as none of them adds a valid entity with callback
`cb` again, the callbacks invoked by all of them differ from `cb`. -/
theorem removed_callback_never_fires (t : MxTimer) (cb : Nat) (ops : List Op)
    (ht : Reachable t) (hr : (t.RemoveCallback cb).1 = true)
    (hops : ∀ cbe, Op.add cbe ∈ ops → cbe.callback_ = cb → cbe.IsValid = false) :
    ∀ c ∈ (run (t.RemoveCallback cb).2 ops).2, c.1 ≠ cb :=
  run_absent _ ops cb (inv_remove t cb (reachable_inv t ht)) (removeCallback_absent t cb hr) hops

theorem removed_callback_never_fires_witness :
    (oneState.RemoveCallback 1).1 = true ∧
      (run (oneState.RemoveCallback 1).2
          [Op.add entC, Op.handle (fixedClock ⟨5, 0⟩), Op.add entB,
           Op.handle (fixedClock ⟨6, 0⟩)]).2 = [(3, 30), (2, 20)] ∧
      ∀ c ∈ (run (oneState.RemoveCallback 1).2
          [Op.add entC, Op.handle (fixedClock ⟨5, 0⟩), Op.add entB,
           Op.handle (fixedClock ⟨6, 0⟩)]).2, c.1 ≠ 1 :=
  ⟨by decide, by decide,
    removed_callback_never_fires oneState 1 _ reachable_oneState (by decide) (by
      intro cbe hm hc
      simp only [List.mem_cons, Op.add.injEq, List.mem_singleton, reduceCtorEq, or_false,
        false_or, List.not_mem_nil] at hm
      rcases hm with hm | hm
      · subst hm; exact absurd hc (by decide)
      · subst hm; exact absurd hc (by decide))⟩

/-! ### The two views -/

/-- C2: the membership invariant does not hold in every reachable state. After
`AddCallback(entA)` and `AddCallback(entB)`, two valid entities with distinct callbacks and
the same deadline (both calls return true), `entB` is the value stored in `cbe_map_` under
its callback, but it is not in `cbe_set_`, which holds `entA` alone: `std::set::insert`
drops an element equivalent to one that is already there. -/
theorem membership_fails_on_equal_deadlines :
    Reachable tieState ∧
      (MxTimer.empty.AddCallback entA).1 = true ∧ (oneState.AddCallback entB).1 = true ∧
      entA.deadline_ = entB.deadline_ ∧
      mapFind tieState.cbe_map_ entB.callback_ = some entB ∧
      entB ∉ tieState.cbe_set_ ∧
      tieState.cbe_set_ = [entA] ∧ tieState.cbe_map_ = [(1, entA), (2, entB)] :=
  ⟨reachable_tieState, by decide, by decide, by decide, by decide, by decide, by decide,
    by decide⟩

/-- C3: a successful `AddCallback` does not always put the entity in `cbe_set_`. In the
reachable scheduler holding `entA`, the entity `entB` is valid and its callback is not a key
of `cbe_map_`; `AddCallback(entB)` returns true, stores `entB` in `cbe_map_` and sets the
changed flag, but `entB` is not a member of `cbe_set_` afterwards, because its deadline
equals that of `entA`. -/
theorem addCallback_misses_set_on_equal_deadline :
    Reachable oneState ∧ entB.IsValid = true ∧ entB.callback_ ∉ mapKeys oneState.cbe_map_ ∧
      (oneState.AddCallback entB).1 = true ∧
      mapFind (oneState.AddCallback entB).2.cbe_map_ entB.callback_ = some entB ∧
      (oneState.AddCallback entB).2.cbe_changed_ = true ∧
      entB ∉ (oneState.AddCallback entB).2.cbe_set_ :=
  ⟨reachable_oneState, by decide, by decide, by decide, by decide, by decide, by decide⟩

/-- C4: a successful `RemoveCallback` can remove an entity registered under another
callback. In the reachable scheduler `tieState` the set holds `entA` (callback 1) and the map
holds `entA` and `entB` (callback 2), of equal deadline. `RemoveCallback(2)` returns true and
erases key 2 from the map, but `cbe_set_.erase(entB)` erases `entA`, the element equivalent
to `entB`: `entA` was in the set before and is not after, although it is still stored in the
map under callback 1, and the set is not the old one without `entB`. -/
theorem removeCallback_erases_other_entity :
    Reachable tieState ∧ (tieState.RemoveCallback 2).1 = true ∧
      mapFind tieState.cbe_map_ 2 = some entB ∧
      entA.callback_ ≠ 2 ∧ entA ∈ tieState.cbe_set_ ∧
      entA ∉ (tieState.RemoveCallback 2).2.cbe_set_ ∧
      mapFind (tieState.RemoveCallback 2).2.cbe_map_ entA.callback_ = some entA ∧
      (tieState.RemoveCallback 2).2.cbe_set_ ≠ tieState.cbe_set_.filter (fun e => e ≠ entB) :=
  ⟨reachable_tieState, by decide, by decide, by decide, by decide, by decide, by decide,
    by decide⟩

/-! ### Results of the two public operations -/

/-- C5: `AddCallback(e)` returns true exactly when `e.IsValid()` holds and the callback of
`e` is not a key of `cbe_map_`. In particular it returns false for an entity with both
intervals zero, for an entity with a negative interval, and for an entity whose callback is
already a key of the map. -/
theorem addCallback_true_iff (t : MxTimer) (e : TimerCallbackEntity) :
    ((t.AddCallback e).1 = true ↔
        (e.IsValid = true ∧ e.callback_ ∉ mapKeys t.cbe_map_)) ∧
      ((e.interval_ms_ = 0 ∧ e.interval_ns_ = 0) → (t.AddCallback e).1 = false) ∧
      ((e.interval_ms_ < 0 ∨ e.interval_ns_ < 0) → (t.AddCallback e).1 = false) ∧
      (e.callback_ ∈ mapKeys t.cbe_map_ → (t.AddCallback e).1 = false) := by
  have key : (t.AddCallback e).1 = true ↔
      (e.IsValid = true ∧ e.callback_ ∉ mapKeys t.cbe_map_) := by
    rw [← mapFind_eq_none_iff]
    rcases addCallback_cases t e with ⟨he, hn⟩ | ⟨hv, hf, he⟩
    · rw [he]; simp only [Bool.false_eq_true, false_iff]; exact hn
    · rw [he]; simp only [true_iff]; exact ⟨hv, hf⟩
  refine ⟨key, ?_, ?_, ?_⟩
  · intro h
    rw [← Bool.not_eq_true, key]
    intro hc
    have hv := hc.1
    unfold TimerCallbackEntity.IsValid at hv
    rw [if_pos (Or.inr (Or.inr (Or.inr h)))] at hv
    cases hv
  · intro h
    rw [← Bool.not_eq_true, key]
    intro hc
    have hv := hc.1
    unfold TimerCallbackEntity.IsValid at hv
    have : e.interval_ms_ < 0 ∨ e.interval_ns_ < 0 ∨ e.callback_ = 0 ∨
        (e.interval_ms_ = 0 ∧ e.interval_ns_ = 0) := by
      rcases h with h | h
      · exact Or.inl h
      · exact Or.inr (Or.inl h)
    rw [if_pos this] at hv
    cases hv
  · intro h
    rw [← Bool.not_eq_true, key]
    exact fun hc => hc.2 h

theorem addCallback_true_iff_witness :
    (tieState.AddCallback entC).1 = true ∧
      (tieState.AddCallback (TimerCallbackEntity.construct ⟨0, 0⟩ 4 0 0 0)).1 = false ∧
      (tieState.AddCallback (TimerCallbackEntity.construct ⟨0, 0⟩ 4 0 (-5) 0)).1 = false ∧
      (tieState.AddCallback (TimerCallbackEntity.construct ⟨9, 0⟩ 2 0 7 0)).1 = false :=
  ⟨(addCallback_true_iff tieState entC).1.mpr ⟨by decide, by decide⟩,
    (addCallback_true_iff tieState (TimerCallbackEntity.construct ⟨0, 0⟩ 4 0 0 0)).2.1
      ⟨by decide, by decide⟩,
    (addCallback_true_iff tieState (TimerCallbackEntity.construct ⟨0, 0⟩ 4 0 (-5) 0)).2.2.1
      (Or.inl (by decide)),
    (addCallback_true_iff tieState (TimerCallbackEntity.construct ⟨9, 0⟩ 2 0 7 0)).2.2.2
      (by decide)⟩

/-- C6: `RemoveCallback(cb)` returns true exactly when `cb` is not null and is a key of
`cbe_map_`. -/
theorem removeCallback_true_iff (t : MxTimer) (cb : Nat) :
    (t.RemoveCallback cb).1 = true ↔ (cb ≠ 0 ∧ cb ∈ mapKeys t.cbe_map_) := by
  have hk := mapFind_eq_none_iff t.cbe_map_ cb
  rcases removeCallback_cases t cb with ⟨he, hn⟩ | ⟨h0, v, hf, he⟩
  · rw [he]
    simp only [Bool.false_eq_true, false_iff]
    rintro ⟨h0, hm⟩
    rcases hn with hn | hn
    · exact h0 hn
    · exact hk.mp hn hm
  · rw [he]
    simp only [true_iff]
    refine ⟨h0, ?_⟩
    by_contra hc
    rw [hk.mpr hc] at hf
    cases hf

/-- C7: a failed call leaves the scheduler as it was. When `AddCallback` returns false the
state after the call equals the state before it, and so does it when `RemoveCallback` returns
false: the set, the map (with the entity stored under a duplicate callback) and the changed
flag are the same. -/
theorem failed_call_keeps_state (t : MxTimer) (e : TimerCallbackEntity) (cb : Nat) :
    ((t.AddCallback e).1 = false → (t.AddCallback e).2 = t) ∧
      ((t.RemoveCallback cb).1 = false → (t.RemoveCallback cb).2 = t) := by
  constructor
  · intro h
    rcases addCallback_cases t e with ⟨he, _⟩ | ⟨_, _, he⟩
    · rw [he]
    · rw [he] at h; cases h
  · intro h
    rcases removeCallback_cases t cb with ⟨he, _⟩ | ⟨_, v, _, he⟩
    · rw [he]
    · rw [he] at h; cases h

theorem failed_call_keeps_state_witness :
    (tieState.AddCallback (TimerCallbackEntity.construct ⟨9, 0⟩ 2 0 7 0)).1 = false ∧
      (tieState.AddCallback (TimerCallbackEntity.construct ⟨9, 0⟩ 2 0 7 0)).2 = tieState ∧
      mapFind (tieState.AddCallback (TimerCallbackEntity.construct ⟨9, 0⟩ 2 0 7 0)).2.cbe_map_ 2
        = some entB ∧
      (tieState.RemoveCallback 7).1 = false ∧ (tieState.RemoveCallback 7).2 = tieState :=
  have h1 := (failed_call_keeps_state tieState
    (TimerCallbackEntity.construct ⟨9, 0⟩ 2 0 7 0) 7).1 (by decide)
  ⟨by decide, h1, by rw [h1]; decide,
    by decide,
    (failed_call_keeps_state tieState (TimerCallbackEntity.construct ⟨9, 0⟩ 2 0 7 0) 7).2
      (by decide)⟩

/-! ### Deadlines and firing -/

/-- The deadline computed by the constructor for non-negative intervals: the quotient of
the delay goes to the seconds, the remainder is added to the nanoseconds, without carry. -/
theorem construct_deadline (now : Timespec) (cb data : Nat) (ms ns : Int)
    (hms : 0 ≤ ms) (hns : 0 ≤ ns) :
    (TimerCallbackEntity.construct now cb data ms ns).deadline_ =
      ⟨now.tv_sec + delayNs ms ns / 1000000000,
        now.tv_nsec + delayNs ms ns % 1000000000⟩ := by
  unfold TimerCallbackEntity.construct delayNs
  simp only
  by_cases h1 : ms ≠ 0
  · rw [if_pos h1, if_pos h1]
    rw [Int.tdiv_eq_ediv hms (by decide), Int.tmod_eq_emod hms (by decide)]
    congr 1 <;> omega
  · rw [if_neg h1, if_neg h1]
    by_cases h2 : ns ≠ 0
    · rw [if_pos h2]
      rw [Int.tdiv_eq_ediv hns (by decide), Int.tmod_eq_emod hns (by decide)]
    · rw [if_neg h2]
      have : ns = 0 := by omega
      subst this
      simp

/-- Of two entities constructed at the same reading with non-negative intervals, the one
with the smaller delay is strictly smaller for `operator<`. -/
theorem construct_lt_of_delay_lt (now : Timespec) (cbA dataA cbB dataB : Nat)
    (msA nsA msB nsB : Int) (hA1 : 0 ≤ msA) (hA2 : 0 ≤ nsA) (hB1 : 0 ≤ msB) (hB2 : 0 ≤ nsB)
    (h : delayNs msA nsA < delayNs msB nsB) :
    (TimerCallbackEntity.construct now cbA dataA msA nsA).lt
        (TimerCallbackEntity.construct now cbB dataB msB nsB) = true ∧
      (TimerCallbackEntity.construct now cbB dataB msB nsB).lt
        (TimerCallbackEntity.construct now cbA dataA msA nsA) = false := by
  have hlt : (TimerCallbackEntity.construct now cbA dataA msA nsA).lt
      (TimerCallbackEntity.construct now cbB dataB msB nsB) = true := by
    rw [lt_iff, construct_deadline _ _ _ _ _ hA1 hA2, construct_deadline _ _ _ _ _ hB1 hB2]
    simp only
    omega
  exact ⟨hlt, lt_asymm _ _ hlt⟩

/-- For normalized readings the `(tv_sec, tv_nsec)` order is the order of the total
numbers of nanoseconds. -/
theorem atOrBefore_iff_totalNs (d now : Timespec) (hd : Normalized d) (hn : Normalized now) :
    AtOrBefore d now ↔ totalNs d ≤ totalNs now := by
  unfold AtOrBefore totalNs
  unfold Normalized at hd hn
  omega

/-- C8: an entity can fire before its deadline. The entity `entLate` is constructed at the
normalized reading `0.6 s` with the valid delay of 900 ms, so that it is due at `1.5 s`; the
constructor stores the deadline `(0, 1_500_000_000)` without carrying the nanoseconds into
the seconds. After `AddCallback(entLate)`, `HandleCallbacks` run at the normalized reading
`1.0 s` invokes its callback, although `1.0 s` is earlier than `0.6 s + 900 ms` in total
nanoseconds. -/
theorem fires_before_deadline_without_carry :
    Normalized ⟨0, 600000000⟩ ∧ Normalized ⟨1, 0⟩ ∧ entLate.IsValid = true ∧
      entLate.deadline_ = ⟨0, 1500000000⟩ ∧
      (MxTimer.empty.AddCallback entLate).1 = true ∧
      ((MxTimer.empty.AddCallback entLate).2.HandleCallbacks (fixedClock ⟨1, 0⟩)).2
        = [(entLate.callback_, entLate.data_)] ∧
      totalNs ⟨1, 0⟩ < totalNs ⟨0, 600000000⟩ + delayNs 900 0 :=
  ⟨by decide, by decide, by decide, by decide, by decide, by decide, by decide⟩

/-- C9: of two registered entities constructed at the same reading, the one with the larger
delay can fire without the other. In the reachable scheduler holding `entA`, the valid
entities `entB` (callback 2, 1 ms) and `entC` (callback 3, 3 ms), both constructed at
`0.001 s`, are registered: both `AddCallback` calls return true, and `entB` is strictly
before `entC` for `operator<`. The pass of `HandleCallbacks` at `1 s` invokes the callback
of `entC` and never that of `entB`: `entB` has the deadline of `entA` and was not inserted
in `cbe_set_`. -/
theorem later_entity_fires_without_earlier_one :
    Reachable oneState ∧ entB.IsValid = true ∧ entC.IsValid = true ∧
      entB = TimerCallbackEntity.construct ⟨0, 1000000⟩ 2 20 1 0 ∧
      entC = TimerCallbackEntity.construct ⟨0, 1000000⟩ 3 30 3 0 ∧
      delayNs 1 0 < delayNs 3 0 ∧
      entB.lt entC = true ∧ entC.lt entB = false ∧
      (oneState.AddCallback entB).1 = true ∧ (tieState.AddCallback entC).1 = true ∧
      ((tieState.AddCallback entC).2.HandleCallbacks (fixedClock ⟨1, 0⟩)).2
        = [(1, 10), (3, 30)] ∧
      (entC.callback_, entC.data_) ∈
        ((tieState.AddCallback entC).2.HandleCallbacks (fixedClock ⟨1, 0⟩)).2 ∧
      ∀ c ∈ ((tieState.AddCallback entC).2.HandleCallbacks (fixedClock ⟨1, 0⟩)).2,
        c.1 ≠ entB.callback_ :=
  ⟨reachable_oneState, by decide, by decide, rfl, rfl, by decide, by decide, by decide,
    by decide, by decide, by decide, by decide, by decide⟩

/-! ### One pass of fire-processing at a fixed reading -/

theorem dueAt_iff (now : Timespec) (e : TimerCallbackEntity) :
    dueAt now e = true ↔ AtOrBefore e.deadline_ now :=
  laterThan_iff now e.deadline_

theorem dueAt_eq_decide (now : Timespec) :
    dueAt now = fun e => decide (AtOrBefore e.deadline_ now) := by
  funext e
  rw [Bool.eq_iff_iff, dueAt_iff, decide_eq_true_iff]

theorem pendingAt_eq_decide (now : Timespec) :
    pendingAt now = fun e => !decide (AtOrBefore e.deadline_ now) := by
  funext e
  unfold pendingAt
  rw [dueAt_eq_decide]

theorem setSorted_nodup (s : List TimerCallbackEntity) (h : SetSorted s) : s.Nodup := by
  unfold SetSorted at h
  refine List.Pairwise.imp ?_ h
  intro a b hab heq
  rw [heq, lt_irrefl] at hab
  cases hab

theorem count_one_of_nodup (l : List (Nat × Nat)) (a : Nat × Nat) (d : l.Nodup)
    (h : a ∈ l) : l.count a = 1 := by
  induction l with
  | nil => cases h
  | cons x xs ih =>
    have hd := List.nodup_cons.mp d
    rw [List.count_cons]
    by_cases hx : x = a
    · subst hx
      have : List.count x xs = 0 := List.count_eq_zero.mpr hd.1
      simp [this]
    · have hm : a ∈ xs := by
        rcases List.mem_cons.mp h with h | h
        · exact absurd h.symm hx
        · exact h
      have hb : (x == a) = false := by simpa using hx
      rw [ih hd.2 hm, hb]
      rfl

/-- Two entities of a reachable set with the same callback are the same entity. -/
theorem inv_callback_inj (t : MxTimer) (h : Inv t) (e f : TimerCallbackEntity)
    (he : e ∈ t.cbe_set_) (hf : f ∈ t.cbe_set_) (hc : e.callback_ = f.callback_) : e = f := by
  have h1 := h.inMap e he
  have h2 := h.inMap f hf
  rw [hc, h2] at h1
  exact (Option.some.inj h1).symm

/-- One pass at a fixed reading, with the stored deadlines compared as `LaterThan` compares
them, in the order of the pairs `(tv_sec, tv_nsec)`, which is the order in time only for
normalized deadlines. In a reachable scheduler, one pass of `HandleCallbacks` during which
the clock reads `now` (1) invokes exactly the entities of `cbe_set_` whose deadline is at or before
`now`, in the order of the set, each with its own data; (2) each of them is invoked exactly
once and is removed from the set and from the map; (3) an entity of the set whose deadline
is later than `now` is not invoked and stays in the set and in the map; (4) the pass stops
with the set empty or with a front entity whose deadline is strictly later than `now`;
(5) the set left is the old one without the due entities; (6) every entity stored in the map
with a deadline later than `now` is still stored there. -/
theorem handleCallbacks_fires_exactly_due (t : MxTimer) (now : Timespec) (ht : Reachable t) :
    (t.HandleCallbacks (fixedClock now)).2 =
        (t.cbe_set_.filter (fun e => decide (AtOrBefore e.deadline_ now))).map
          (fun e => (e.callback_, e.data_)) ∧
      (∀ e ∈ t.cbe_set_, AtOrBefore e.deadline_ now →
        (t.HandleCallbacks (fixedClock now)).2.count (e.callback_, e.data_) = 1 ∧
        e ∉ (t.HandleCallbacks (fixedClock now)).1.cbe_set_ ∧
        e.callback_ ∉ mapKeys (t.HandleCallbacks (fixedClock now)).1.cbe_map_) ∧
      (∀ e ∈ t.cbe_set_, ¬ AtOrBefore e.deadline_ now →
        (∀ c ∈ (t.HandleCallbacks (fixedClock now)).2, c.1 ≠ e.callback_) ∧
        e ∈ (t.HandleCallbacks (fixedClock now)).1.cbe_set_ ∧
        mapFind (t.HandleCallbacks (fixedClock now)).1.cbe_map_ e.callback_ = some e) ∧
      ((t.HandleCallbacks (fixedClock now)).1.cbe_set_ = [] ∨
        ∃ x xs, (t.HandleCallbacks (fixedClock now)).1.cbe_set_ = x :: xs ∧
          ¬ AtOrBefore x.deadline_ now) ∧
      (t.HandleCallbacks (fixedClock now)).1.cbe_set_ =
        t.cbe_set_.filter (fun e => !decide (AtOrBefore e.deadline_ now)) ∧
      (∀ k v, mapFind t.cbe_map_ k = some v → ¬ AtOrBefore v.deadline_ now →
        mapFind (t.HandleCallbacks (fixedClock now)).1.cbe_map_ k = some v) := by
  have hi := reachable_inv t ht
  have hi2 := inv_handle t (fixedClock now) hi
  have htrace : (t.HandleCallbacks (fixedClock now)).2 =
      (t.cbe_set_.filter (dueAt now)).map callOf := by
    show (MxTimer.handleLoop (fixedClock now) 0 t.cbe_set_ t.cbe_map_).2.2 = _
    rw [handleLoop_trace, firedFrom_fixed now 0 _ hi.sorted]
  have hset : (t.HandleCallbacks (fixedClock now)).1.cbe_set_ =
      t.cbe_set_.filter (pendingAt now) :=
    handleLoop_fixed_set now 0 t.cbe_set_ t.cbe_map_ hi.sorted
  have hmap : ∀ k, mapFind (t.HandleCallbacks (fixedClock now)).1.cbe_map_ k =
      if k ∈ (t.cbe_set_.filter (dueAt now)).map (fun e => e.callback_) then none
      else mapFind t.cbe_map_ k := by
    intro k
    show mapFind (MxTimer.handleLoop (fixedClock now) 0 t.cbe_set_ t.cbe_map_).2.1 k = _
    rw [handleLoop_map, firedFrom_fixed now 0 _ hi.sorted]
  have hnodup : ((t.cbe_set_.filter (dueAt now)).map callOf).Nodup := by
    refine List.Nodup.map_on ?_ (List.Nodup.filter _ (setSorted_nodup _ hi.sorted))
    intro x hx y hy hxy
    have hc : x.callback_ = y.callback_ := congrArg Prod.fst hxy
    exact inv_callback_inj t hi x y (List.mem_filter.mp hx).1 (List.mem_filter.mp hy).1 hc
  refine ⟨?_, ?_, ?_, ?_, ?_, ?_⟩
  · rw [htrace, dueAt_eq_decide]; rfl
  · intro e he hd
    have hdue : dueAt now e = true := (dueAt_iff now e).mpr hd
    have hmem : e ∈ t.cbe_set_.filter (dueAt now) := List.mem_filter.mpr ⟨he, hdue⟩
    refine ⟨?_, ?_, ?_⟩
    · rw [htrace]
      exact count_one_of_nodup _ _ hnodup (List.mem_map.mpr ⟨e, hmem, rfl⟩)
    · rw [hset]
      intro hc
      have := (List.mem_filter.mp hc).2
      simp [pendingAt, hdue] at this
    · rw [← mapFind_eq_none_iff, hmap]
      rw [if_pos (List.mem_map.mpr ⟨e, hmem, rfl⟩)]
  · intro e he hd
    have hdue : dueAt now e = false := by
      rw [← Bool.not_eq_true, dueAt_iff]; exact hd
    have hmem : e ∈ (t.HandleCallbacks (fixedClock now)).1.cbe_set_ := by
      rw [hset]
      exact List.mem_filter.mpr ⟨he, by simp [pendingAt, hdue]⟩
    refine ⟨?_, hmem, hi2.inMap e hmem⟩
    intro c hc hcb
    rw [htrace] at hc
    obtain ⟨f, hf, hfc⟩ := List.mem_map.mp hc
    have hf2 := List.mem_filter.mp hf
    have hcf : f.callback_ = e.callback_ := by rw [← hcb, ← hfc]; rfl
    have := inv_callback_inj t hi f e hf2.1 he hcf
    rw [this, hdue] at hf2
    cases hf2.2
  · have hstop := handleLoop_stop (fixedClock now) 0 t.cbe_set_ t.cbe_map_
    rcases hstop with h | ⟨x, xs, hx, hl⟩
    · exact Or.inl h
    · refine Or.inr ⟨x, xs, hx, ?_⟩
      intro hc
      have := (laterThan_iff now x.deadline_).mpr hc
      simp only [fixedClock] at hl
      rw [hl] at this
      cases this
  · rw [hset, pendingAt_eq_decide]
  · intro k v hk hd
    rw [hmap]
    have : ¬ k ∈ (t.cbe_set_.filter (dueAt now)).map (fun e => e.callback_) := by
      intro hc
      obtain ⟨f, hf, hfc⟩ := List.mem_map.mp hc
      have hf2 := List.mem_filter.mp hf
      have h1 := hi.inMap f hf2.1
      rw [hfc, hk] at h1
      have hvf : v = f := Option.some.inj h1
      rw [hvf] at hd
      exact hd ((dueAt_iff now f).mp hf2.2)
    rw [if_neg this]
    exact hk

theorem handleCallbacks_fires_exactly_due_witness :
    Reachable (tieState.AddCallback entC).2 ∧
      ((tieState.AddCallback entC).2.HandleCallbacks (fixedClock ⟨0, 2000000⟩)).2 =
        [(1, 10)] ∧
      ((tieState.AddCallback entC).2.HandleCallbacks (fixedClock ⟨0, 2000000⟩)).1.cbe_set_ =
        [entC] :=
  have hr : Reachable (tieState.AddCallback entC).2 := Reachable.add _ entC reachable_tieState
  have h := handleCallbacks_fires_exactly_due (tieState.AddCallback entC).2 ⟨0, 2000000⟩ hr
  ⟨hr, h.1.trans (by decide), h.2.2.2.2.1.trans (by decide)⟩

/-- When two entities are both in the set of a scheduler that satisfies the invariant, and
the first is smaller for `operator<`, a pass of `HandleCallbacks` (at any clock readings)
that invokes the second has invoked the first before it. -/
theorem fires_in_order_when_both_in_set (t : MxTimer) (clock : Nat → Timespec)
    (a b : TimerCallbackEntity) (hi : Inv t) (ha : a ∈ t.cbe_set_) (hab : a.lt b = true)
    (hb : b ∈ firedFrom clock 0 t.cbe_set_) :
    ∃ l1 l2, (t.HandleCallbacks clock).2 = l1 ++ callOf a :: l2 ∧ callOf b ∈ l2 := by
  have hsplit := handleLoop_set clock 0 t.cbe_set_ t.cbe_map_
  have hsorted := hi.sorted
  unfold SetSorted at hsorted
  rw [hsplit, List.pairwise_append] at hsorted
  have haf : a ∈ firedFrom clock 0 t.cbe_set_ := by
    rw [hsplit] at ha
    rcases List.mem_append.mp ha with h | h
    · exact h
    · have := hsorted.2.2 b hb a h
      rw [lt_asymm a b hab] at this
      cases this
  obtain ⟨l1, l2, hl⟩ := List.append_of_mem haf
  have hp := hsorted.1
  rw [hl, List.pairwise_append] at hp
  have hb2 : b ∈ l2 := by
    rw [hl] at hb
    rcases List.mem_append.mp hb with h | h
    · have := hp.2.2 b h a (List.mem_cons_self _ _)
      rw [lt_asymm a b hab] at this
      cases this
    · rcases List.mem_cons.mp h with h | h
      · rw [h, lt_irrefl] at hab; cases hab
      · exact h
  refine ⟨l1.map callOf, l2.map callOf, ?_, List.mem_map.mpr ⟨b, hb2, rfl⟩⟩
  show (MxTimer.handleLoop clock 0 t.cbe_set_ t.cbe_map_).2.2 = _
  rw [handleLoop_trace, hl]
  simp

/-! ### The order of the calls of one pass -/

theorem atOrBefore_of_lt (a b : TimerCallbackEntity) (h : a.lt b = true) :
    AtOrBefore a.deadline_ b.deadline_ := by
  rw [lt_iff] at h
  unfold AtOrBefore
  omega

/-- The order of the calls of a pass, with the stored deadlines compared as pairs
`(tv_sec, tv_nsec)`. In a reachable scheduler, at any clock readings, the callbacks invoked
by one pass of `HandleCallbacks` are those of a front segment `fired` of `cbe_set_`, in the order of
that segment, and the segment is in non-decreasing deadline order: of two entities of it,
the one invoked first has a deadline at or before that of the other, in
`(tv_sec, tv_nsec)` order, which for normalized deadlines is the order of the total
nanoseconds. -/
theorem handleCallbacks_in_deadline_order (t : MxTimer) (clock : Nat → Timespec)
    (ht : Reachable t) :
    ∃ fired : List TimerCallbackEntity,
      t.cbe_set_ = fired ++ (t.HandleCallbacks clock).1.cbe_set_ ∧
      (t.HandleCallbacks clock).2 = fired.map (fun e => (e.callback_, e.data_)) ∧
      fired.Pairwise (fun x y => AtOrBefore x.deadline_ y.deadline_) ∧
      fired.Pairwise (fun x y => Normalized x.deadline_ → Normalized y.deadline_ →
        totalNs x.deadline_ ≤ totalNs y.deadline_) := by
  have hi := reachable_inv t ht
  have hsorted := hi.sorted
  unfold SetSorted at hsorted
  rw [handleLoop_set clock 0 t.cbe_set_ t.cbe_map_, List.pairwise_append] at hsorted
  refine ⟨firedFrom clock 0 t.cbe_set_, handleLoop_set clock 0 t.cbe_set_ t.cbe_map_,
    ?_, ?_, ?_⟩
  · show (MxTimer.handleLoop clock 0 t.cbe_set_ t.cbe_map_).2.2 = _
    rw [handleLoop_trace]; rfl
  · exact List.Pairwise.imp (fun {a b} h => atOrBefore_of_lt a b h) hsorted.1
  · exact List.Pairwise.imp (fun {a b} h ha hb =>
      (atOrBefore_iff_totalNs _ _ ha hb).mp (atOrBefore_of_lt a b h)) hsorted.1

theorem handleCallbacks_in_deadline_order_witness :
    ∃ fired : List TimerCallbackEntity,
      (tieState.AddCallback entC).2.cbe_set_ =
        fired ++ ((tieState.AddCallback entC).2.HandleCallbacks (fixedClock ⟨7, 0⟩)).1.cbe_set_ ∧
      ((tieState.AddCallback entC).2.HandleCallbacks (fixedClock ⟨7, 0⟩)).2 =
        fired.map (fun e => (e.callback_, e.data_)) ∧
      fired.Pairwise (fun x y => AtOrBefore x.deadline_ y.deadline_) ∧
      fired.Pairwise (fun x y => Normalized x.deadline_ → Normalized y.deadline_ →
        totalNs x.deadline_ ≤ totalNs y.deadline_) :=
  handleCallbacks_in_deadline_order (tieState.AddCallback entC).2 (fixedClock ⟨7, 0⟩)
    (Reachable.add _ entC reachable_tieState)

/-! ### One entity for each callback -/

theorem mem_mapKeys_mapAssign (m : List (Nat × TimerCallbackEntity)) (cb k : Nat)
    (v : TimerCallbackEntity) (h : k ∈ mapKeys (mapAssign m cb v)) :
    k = cb ∨ k ∈ mapKeys m := by
  by_contra hc
  simp only [not_or] at hc
  have h1 := (mapFind_eq_none_iff m k).mpr hc.2
  have h2 : mapFind (mapAssign m cb v) k = none := by
    rw [mapFind_mapAssign, if_neg (fun e => hc.1 e.symm)]; exact h1
  exact (mapFind_eq_none_iff _ k).mp h2 h

theorem mem_mapAssign (m : List (Nat × TimerCallbackEntity)) (cb : Nat)
    (v : TimerCallbackEntity) (kv : Nat × TimerCallbackEntity)
    (h : kv ∈ mapAssign m cb v) : kv = (cb, v) ∨ kv ∈ m := by
  induction m with
  | nil => simp [mapAssign] at h; exact Or.inl h
  | cons p m ih =>
    obtain ⟨k, w⟩ := p
    simp only [mapAssign] at h
    split at h
    · rcases List.mem_cons.mp h with h | h
      · exact Or.inl h
      · exact Or.inr h
    · split at h
      · rcases List.mem_cons.mp h with h | h
        · exact Or.inl h
        · exact Or.inr (List.mem_cons_of_mem _ h)
      · rcases List.mem_cons.mp h with h | h
        · exact Or.inr (h ▸ List.mem_cons_self _ _)
        · rcases ih h with h | h
          · exact Or.inl h
          · exact Or.inr (List.mem_cons_of_mem _ h)

theorem mapAssign_keys_nodup (m : List (Nat × TimerCallbackEntity)) (cb : Nat)
    (v : TimerCallbackEntity) (h : (mapKeys m).Nodup) (hc : cb ∉ mapKeys m) :
    (mapKeys (mapAssign m cb v)).Nodup := by
  induction m with
  | nil => simp [mapAssign, mapKeys]
  | cons p m ih =>
    obtain ⟨k, w⟩ := p
    have hk : (k ∉ mapKeys m) ∧ (mapKeys m).Nodup := by
      unfold mapKeys at h ⊢
      simpa using h
    have hc2 : cb ≠ k ∧ cb ∉ mapKeys m := by
      unfold mapKeys at hc ⊢
      simpa using hc
    simp only [mapAssign]
    split
    · unfold mapKeys at hc h ⊢
      simp only [List.map_cons, List.nodup_cons]
      exact ⟨by simpa using hc, by simpa using h⟩
    · rw [if_neg hc2.1]
      have hrec := ih hk.2 hc2.2
      have hnk : k ∉ mapKeys (mapAssign m cb v) := by
        intro hm
        rcases mem_mapKeys_mapAssign m cb k v hm with e | e
        · exact hc2.1 e.symm
        · exact hk.1 e
      show (k :: mapKeys (mapAssign m cb v)).Nodup
      exact List.nodup_cons.mpr ⟨hnk, hrec⟩

theorem mapInv_assign (m : List (Nat × TimerCallbackEntity)) (v : TimerCallbackEntity)
    (h : MapInv m) (hc : mapFind m v.callback_ = none) :
    MapInv (mapAssign m v.callback_ v) := by
  refine ⟨mapAssign_keys_nodup m _ v h.keys ((mapFind_eq_none_iff _ _).mp hc), ?_⟩
  intro kv hkv
  rcases mem_mapAssign m _ v kv hkv with e | e
  · rw [e]
  · exact h.own kv e

theorem mapInv_erase (m : List (Nat × TimerCallbackEntity)) (cb : Nat) (h : MapInv m) :
    MapInv (mapErase m cb) := by
  have hsub : List.Sublist (mapErase m cb) m := List.filter_sublist _
  refine ⟨List.Nodup.sublist (List.Sublist.map _ hsub) h.keys, ?_⟩
  intro kv hkv
  exact h.own kv (hsub.subset hkv)

theorem mapInv_handleLoop (clock : Nat → Timespec) (i : Nat) (s : List TimerCallbackEntity)
    (m : List (Nat × TimerCallbackEntity)) (h : MapInv m) :
    MapInv (MxTimer.handleLoop clock i s m).2.1 := by
  induction s generalizing i m with
  | nil => exact h
  | cons x xs ih =>
    simp only [MxTimer.handleLoop]
    split
    · exact ih (i + 1) _ (mapInv_erase m _ h)
    · exact h

theorem reachable_mapInv (t : MxTimer) (h : Reachable t) : MapInv t.cbe_map_ := by
  induction h with
  | start => exact ⟨List.nodup_nil, fun _ hm => (by cases hm)⟩
  | add t cbe _ ih =>
    rcases addCallback_cases t cbe with ⟨he, _⟩ | ⟨_, hf, he⟩
    · rw [he]; exact ih
    · rw [he]; exact mapInv_assign _ cbe ih hf
  | remove t cb _ ih =>
    rcases removeCallback_cases t cb with ⟨he, _⟩ | ⟨_, v, _, he⟩
    · rw [he]; exact ih
    · rw [he]; exact mapInv_erase _ cb ih
  | handle t clock _ ih => exact mapInv_handleLoop clock 0 t.cbe_set_ t.cbe_map_ ih

/-- C12: in every reachable scheduler each view holds at most one entity for a callback:
the callbacks of the entities of `cbe_set_` are pairwise distinct, and so are the callbacks
of the entities stored in `cbe_map_`, each of which is stored under its own callback. -/
theorem one_entity_per_callback (t : MxTimer) (ht : Reachable t) :
    (t.cbe_set_.map (fun e => e.callback_)).Nodup ∧
      (t.cbe_map_.map (fun kv => kv.2.callback_)).Nodup ∧
      (∀ kv ∈ t.cbe_map_, kv.2.callback_ = kv.1) := by
  have hi := reachable_inv t ht
  have hm := reachable_mapInv t ht
  refine ⟨?_, ?_, hm.own⟩
  · refine List.Nodup.map_on ?_ (setSorted_nodup _ hi.sorted)
    intro x hx y hy hxy
    exact inv_callback_inj t hi x y hx hy hxy
  · have : t.cbe_map_.map (fun kv => kv.2.callback_) = mapKeys t.cbe_map_ := by
      unfold mapKeys
      exact List.map_congr_left hm.own
    rw [this]
    exact hm.keys

theorem one_entity_per_callback_witness :
    (tieState.cbe_set_.map (fun e => e.callback_)).Nodup ∧
      (tieState.cbe_map_.map (fun kv => kv.2.callback_)).Nodup ∧
      (∀ kv ∈ tieState.cbe_map_, kv.2.callback_ = kv.1) :=
  one_entity_per_callback tieState reachable_tieState

/-! ### Validity and the order of entities -/

/-- C13: `IsValid()` returns false exactly when `interval_ms_` is negative, or
`interval_ns_` is negative, or both intervals are zero, or the callback is null. -/
theorem isValid_false_iff (e : TimerCallbackEntity) :
    e.IsValid = false ↔
      (e.interval_ms_ < 0 ∨ e.interval_ns_ < 0 ∨
        (e.interval_ms_ = 0 ∧ e.interval_ns_ = 0) ∨ e.callback_ = 0) := by
  unfold TimerCallbackEntity.IsValid
  by_cases h : e.interval_ms_ < 0 ∨ e.interval_ns_ < 0 ∨ e.callback_ = 0 ∨
      (e.interval_ms_ = 0 ∧ e.interval_ns_ = 0)
  · rw [if_pos h]
    simp only [true_iff]
    rcases h with h | h | h | h
    · exact Or.inl h
    · exact Or.inr (Or.inl h)
    · exact Or.inr (Or.inr (Or.inr h))
    · exact Or.inr (Or.inr (Or.inl h))
  · rw [if_neg h]
    simp only [Bool.true_eq_false, false_iff]
    intro hc
    apply h
    rcases hc with hc | hc | hc | hc
    · exact Or.inl hc
    · exact Or.inr (Or.inl hc)
    · exact Or.inr (Or.inr (Or.inr hc))
    · exact Or.inr (Or.inr (Or.inl hc))

/-- C14, as stated, fails: `entA` and `entB` have equal deadlines, so the deadline of `entA`
is at or before that of `entB`, and yet `entA < entB` is false. -/
theorem operator_lt_false_on_equal_deadlines :
    entA.deadline_ = entB.deadline_ ∧ AtOrBefore entA.deadline_ entB.deadline_ ∧
      entA.lt entB = false ∧
      ¬ (entA.lt entB = true ↔ AtOrBefore entA.deadline_ entB.deadline_) :=
  ⟨by decide, by decide, by decide, by decide⟩

/-- C14, amended: `a < b` holds exactly when the deadline of `a` is strictly earlier than
that of `b` in `(tv_sec, tv_nsec)` order, that is when the deadline of `b` is not at or
before that of `a`; in particular `a < b` is false when the two deadlines are equal. -/
theorem operator_lt_iff_strictly_earlier (a b : TimerCallbackEntity) :
    (a.lt b = true ↔
        (a.deadline_.tv_sec < b.deadline_.tv_sec ∨
          (a.deadline_.tv_sec = b.deadline_.tv_sec ∧
            a.deadline_.tv_nsec < b.deadline_.tv_nsec))) ∧
      (a.lt b = true ↔ ¬ AtOrBefore b.deadline_ a.deadline_) ∧
      (a.deadline_ = b.deadline_ → a.lt b = false) := by
  refine ⟨lt_iff a b, ?_, ?_⟩
  · rw [lt_iff]
    unfold AtOrBefore
    omega
  · intro h
    exact ((equiv_iff a b).mpr h).1

theorem operator_lt_iff_strictly_earlier_witness :
    entA.lt entC = true ∧ entA.lt entB = false :=
  ⟨(operator_lt_iff_strictly_earlier entA entC).2.1.mpr (by decide),
    (operator_lt_iff_strictly_earlier entA entB).2.2 (by decide)⟩

/-- C15: `operator<` is a strict weak ordering: it is irreflexive, it is transitive, and
being incomparable (neither `a < b` nor `b < a`) is transitive. -/
theorem operator_lt_strict_weak_order (a b c : TimerCallbackEntity) :
    a.lt a = false ∧
      (a.lt b = true → b.lt c = true → a.lt c = true) ∧
      ((a.lt b = false ∧ b.lt a = false) → (b.lt c = false ∧ c.lt b = false) →
        (a.lt c = false ∧ c.lt a = false)) := by
  refine ⟨lt_irrefl a, lt_trans a b c, ?_⟩
  intro h1 h2
  have e1 := (equiv_iff a b).mp h1
  have e2 := (equiv_iff b c).mp h2
  exact (equiv_iff a c).mpr (e1.trans e2)

theorem operator_lt_strict_weak_order_witness :
    entA.lt entA = false ∧ entA.lt entLate = true ∧
      (entA.lt (TimerCallbackEntity.construct ⟨0, 0⟩ 5 0 0 2000000) = false ∧
        (TimerCallbackEntity.construct ⟨0, 0⟩ 5 0 0 2000000).lt entA = false) :=
  ⟨(operator_lt_strict_weak_order entA entC entLate).1,
    (operator_lt_strict_weak_order entA entC entLate).2.1 (by decide) (by decide),
    (operator_lt_strict_weak_order entA entB
      (TimerCallbackEntity.construct ⟨0, 0⟩ 5 0 0 2000000)).2.2
      ⟨by decide, by decide⟩ ⟨by decide, by decide⟩⟩

/-! ### The deadline computed by the constructor -/

/-- C16: for an entity constructed at the reading `now` with non-negative intervals, the
stored deadline is `now` plus the delay in total nanoseconds, the delay being
`interval_ms * 1_000_000` when `interval_ms` is not zero (`interval_ns` is then ignored)
and `interval_ns` otherwise. -/
theorem construct_deadline_total (now : Timespec) (cb data : Nat) (interval_ms interval_ns : Int)
    (hms : 0 ≤ interval_ms) (hns : 0 ≤ interval_ns) :
    (TimerCallbackEntity.construct now cb data interval_ms interval_ns).deadline_.tv_sec
          * 1000000000 +
        (TimerCallbackEntity.construct now cb data interval_ms interval_ns).deadline_.tv_nsec =
      now.tv_sec * 1000000000 + now.tv_nsec +
        (if interval_ms ≠ 0 then interval_ms * 1000000 else interval_ns) := by
  rw [construct_deadline now cb data interval_ms interval_ns hms hns]
  unfold delayNs
  simp only
  split <;> omega

theorem construct_deadline_total_witness :
    (TimerCallbackEntity.construct ⟨0, 600000000⟩ 1 10 900 7).deadline_.tv_sec * 1000000000 +
        (TimerCallbackEntity.construct ⟨0, 600000000⟩ 1 10 900 7).deadline_.tv_nsec =
      0 * 1000000000 + 600000000 + (if (900 : Int) ≠ 0 then 900 * 1000000 else 7) :=
  construct_deadline_total ⟨0, 600000000⟩ 1 10 900 7 (by decide) (by decide)

/-- The nanoseconds of the deadline of an entity constructed at a normalized reading with
non-negative intervals stay below two seconds. -/
theorem construct_deadline_nsec_bound (now : Timespec) (cb data : Nat) (ms ns : Int)
    (hn : Normalized now) (hms : 0 ≤ ms) (hns : 0 ≤ ns) :
    0 ≤ (TimerCallbackEntity.construct now cb data ms ns).deadline_.tv_nsec ∧
      (TimerCallbackEntity.construct now cb data ms ns).deadline_.tv_nsec < 2000000000 := by
  rw [construct_deadline now cb data ms ns hms hns]
  unfold Normalized at hn
  simp only
  omega

/-- C17: the constructor does not normalize the deadline. The valid entity `entLate`,
constructed at the normalized reading `(0, 600_000_000)` with `interval_ms = 900`, gets the
deadline `(0, 1_500_000_000)`: its `tv_nsec` is not below `1_000_000_000` and nothing was
carried into `tv_sec`. -/
theorem deadline_not_normalized_without_carry :
    Normalized ⟨0, 600000000⟩ ∧
      entLate = TimerCallbackEntity.construct ⟨0, 600000000⟩ 1 10 900 0 ∧
      entLate.IsValid = true ∧
      entLate.deadline_.tv_sec = 0 ∧ entLate.deadline_.tv_nsec = 1500000000 ∧
      ¬ Normalized entLate.deadline_ :=
  ⟨by decide, rfl, by decide, by decide, by decide, by decide⟩

/-! ### The worker thread -/

/-- The wake time, with the stored deadlines compared as pairs `(tv_sec, tv_nsec)`. In a
reachable scheduler, when `cbe_set_` is not empty the entity returned by
`GetFirstCallbackEntity()` is an entity of the set whose deadline is at or before that of
every entity of the set, and the wake time of the worker is its deadline; when the set is
empty `GetFirstCallbackEntity()` returns an invalid entity and the wake time is the clock
reading plus 2 seconds. -/
theorem worker_wake_time (t : MxTimer) (now1 now2 : Timespec) (ht : Reachable t) :
    (t.cbe_set_ ≠ [] →
        t.GetFirstCallbackEntity now1 ∈ t.cbe_set_ ∧
        (∀ e ∈ t.cbe_set_,
          AtOrBefore (t.GetFirstCallbackEntity now1).deadline_ e.deadline_) ∧
        wakeTime t now1 now2 = (t.GetFirstCallbackEntity now1).deadline_) ∧
      (t.cbe_set_ = [] →
        (t.GetFirstCallbackEntity now1).IsValid = false ∧
        wakeTime t now1 now2 = ⟨now2.tv_sec + 2, now2.tv_nsec⟩) := by
  have hi := reachable_inv t ht
  constructor
  · intro hne
    cases hs : t.cbe_set_ with
    | nil => exact absurd hs hne
    | cons x xs =>
      have hfirst : t.GetFirstCallbackEntity now1 = x := by
        unfold MxTimer.GetFirstCallbackEntity; rw [hs]
      have hsorted := hi.sorted
      unfold SetSorted at hsorted
      rw [hs] at hsorted
      have hx := List.pairwise_cons.mp hsorted
      have hv : x.IsValid = true := hi.valid x (by rw [hs]; exact List.mem_cons_self _ _)
      rw [hfirst]
      refine ⟨List.mem_cons_self _ _, ?_, ?_⟩
      · intro e he
        rcases List.mem_cons.mp he with he | he
        · rw [he]; unfold AtOrBefore; omega
        · exact atOrBefore_of_lt x e (hx.1 e he)
      · unfold wakeTime
        simp only [hfirst, hv, if_true]
  · intro hs
    have hfirst : t.GetFirstCallbackEntity now1 =
        TimerCallbackEntity.construct now1 0 0 0 0 := by
      unfold MxTimer.GetFirstCallbackEntity; rw [hs]
    have hv : (TimerCallbackEntity.construct now1 0 0 0 0).IsValid = false := by
      simp [TimerCallbackEntity.IsValid, TimerCallbackEntity.construct]
    rw [hfirst]
    refine ⟨hv, ?_⟩
    unfold wakeTime
    simp only [hfirst, hv, Bool.false_eq_true, if_false]

theorem worker_wake_time_witness :
    wakeTime (tieState.AddCallback entC).2 ⟨9, 5⟩ ⟨9, 6⟩ = ⟨0, 2000000⟩ ∧
      wakeTime MxTimer.empty ⟨9, 5⟩ ⟨9, 6⟩ = ⟨11, 6⟩ :=
  ⟨((worker_wake_time (tieState.AddCallback entC).2 ⟨9, 5⟩ ⟨9, 6⟩
      (Reachable.add _ entC reachable_tieState)).1 (by decide)).2.2.trans (by decide),
    ((worker_wake_time MxTimer.empty ⟨9, 5⟩ ⟨9, 6⟩ Reachable.start).2 rfl).2⟩

/-- C19: in every reachable scheduler each entity of `cbe_set_` is valid and is the entity
stored in `cbe_map_` under its callback, and no two entities of `cbe_set_` have equal
deadlines. -/
theorem set_entities_valid_mapped_distinct (t : MxTimer) (ht : Reachable t) :
    (∀ e ∈ t.cbe_set_, e.IsValid = true ∧ mapFind t.cbe_map_ e.callback_ = some e) ∧
      (t.cbe_set_.map (fun e => e.deadline_)).Nodup := by
  have hi := reachable_inv t ht
  refine ⟨fun e he => ⟨hi.valid e he, hi.inMap e he⟩, ?_⟩
  unfold List.Nodup
  rw [List.pairwise_map]
  refine List.Pairwise.imp ?_ hi.sorted
  intro a b hab heq
  have := ((equiv_iff a b).mpr heq).1
  rw [hab] at this
  cases this

theorem set_entities_valid_mapped_distinct_witness :
    (∀ e ∈ tieState.cbe_set_,
        e.IsValid = true ∧ mapFind tieState.cbe_map_ e.callback_ = some e) ∧
      (tieState.cbe_set_.map (fun e => e.deadline_)).Nodup :=
  set_entities_valid_mapped_distinct tieState reachable_tieState

theorem waitLoop_of_rc_ne (evs : List WaitEvent) (t : MxTimer) (rc : Int) (h : rc ≠ 0) :
    waitLoop evs t rc = some (t, rc, 0) := by
  have hc : ¬ ((!t.cbe_changed_) = true ∧ 0 = rc) := fun hc => h hc.2.symm
  cases evs with
  | nil => simp only [waitLoop]; rw [if_neg hc]
  | cons ev evs => simp only [waitLoop]; rw [if_neg hc]

/-- The value of `rc` at the exit of the wait loop is not zero as soon as one of the waits
performed returned a value that is not zero. -/
theorem waitLoop_rc_of_wait (evs : List WaitEvent) (t : MxTimer) (rc : Int)
    (t1 : MxTimer) (rc1 : Int) (n : Nat) (h : waitLoop evs t rc = some (t1, rc1, n))
    (k : Nat) (ev : WaitEvent) (hk : k < n) (hev : evs[k]? = some ev) (hrc : ev.rc ≠ 0) :
    rc1 ≠ 0 := by
  induction evs generalizing t rc n k with
  | nil => simp at hev
  | cons e es ih =>
    simp only [waitLoop] at h
    split at h
    · cases hw : waitLoop es (applyCalls t e.calls) e.rc with
      | none => rw [hw] at h; simp at h
      | some r =>
        obtain ⟨t2, rc2, m⟩ := r
        rw [hw] at h
        simp only [Option.some.injEq, Prod.mk.injEq] at h
        obtain ⟨h1, h2, h3⟩ := h
        rw [h1, h2] at hw
        cases k with
        | zero =>
          simp only [List.getElem?_cons_zero, Option.some.injEq] at hev
          subst hev
          rw [waitLoop_of_rc_ne es _ _ hrc] at hw
          simp only [Option.some.injEq, Prod.mk.injEq] at hw
          rw [← hw.2.1]
          exact hrc
        | succ k =>
          simp only [List.getElem?_cons_succ] at hev
          exact ih _ _ m hw k (by omega) hev
    · simp only [Option.some.injEq, Prod.mk.injEq] at h
      omega

theorem workerIteration_of_rc_ne (t : MxTimer) (rc : Int) (now1 now2 : Timespec)
    (evs : List WaitEvent) (clock : Nat → Timespec) (h : rc ≠ 0) :
    workerIteration t rc now1 now2 evs clock =
      some (if t.cbe_changed_ then
          { timer := { t with cbe_changed_ := false }, rc := rc,
            tv := wakeTime t now1 now2, waits := 0, invoked := [] }
        else
          { timer := (t.HandleCallbacks clock).1, rc := rc,
            tv := wakeTime t now1 now2, waits := 0,
            invoked := (t.HandleCallbacks clock).2 }) := by
  unfold workerIteration
  rw [waitLoop_of_rc_ne evs t rc h]
  simp only
  split <;> rfl

theorem workerRun_of_rc_ne (inps : List IterInput) (t : MxTimer) (rc : Int) (h : rc ≠ 0) :
    ∃ t2, workerRun inps t rc = some (t2, rc, List.replicate inps.length 0) := by
  induction inps generalizing t with
  | nil => exact ⟨t, rfl⟩
  | cons inp inps ih =>
    have hstep : ∃ r, workerIteration t rc inp.now1 inp.now2 inp.evs inp.clock = some r ∧
        r.rc = rc ∧ r.waits = 0 := by
      rw [workerIteration_of_rc_ne t rc inp.now1 inp.now2 inp.evs inp.clock h]
      refine ⟨_, rfl, ?_, ?_⟩ <;> split <;> rfl
    obtain ⟨r, hr, hrc, hw⟩ := hstep
    obtain ⟨t2, h2⟩ := ih (applyCalls r.timer inp.between)
    refine ⟨t2, ?_⟩
    simp only [workerRun]
    rw [hr]
    simp only
    rw [hrc, h2]
    simp only
    rw [hw]
    rfl

/-- C20: the variable `rc` of the worker is never reset. (1) An iteration that starts with
`rc` not zero performs no timed wait and keeps `rc`: it clears the changed flag when the
flag is set, and runs `HandleCallbacks` otherwise. (2) Whatever the iterations that follow,
started with `rc` not zero they all end, none of them waits, and `rc` keeps its value.
(3) In any iteration, as soon as one of the waits performed returns a value that is not
zero, the iteration ends with `rc` not zero. -/
theorem worker_rc_never_reset (t : MxTimer) (rc : Int) (now1 now2 : Timespec)
    (evs : List WaitEvent) (clock : Nat → Timespec) (inps : List IterInput) :
    (rc ≠ 0 →
        workerIteration t rc now1 now2 evs clock =
          some (if t.cbe_changed_ then
              { timer := { t with cbe_changed_ := false }, rc := rc,
                tv := wakeTime t now1 now2, waits := 0, invoked := [] }
            else
              { timer := (t.HandleCallbacks clock).1, rc := rc,
                tv := wakeTime t now1 now2, waits := 0,
                invoked := (t.HandleCallbacks clock).2 })) ∧
      (rc ≠ 0 → ∃ t2, workerRun inps t rc = some (t2, rc, List.replicate inps.length 0)) ∧
      (∀ r, workerIteration t rc now1 now2 evs clock = some r →
        ∀ k ev, k < r.waits → evs[k]? = some ev → ev.rc ≠ 0 → r.rc ≠ 0) := by
  refine ⟨workerIteration_of_rc_ne t rc now1 now2 evs clock,
    workerRun_of_rc_ne inps t rc, ?_⟩
  intro r hr k ev hk hev hrc
  unfold workerIteration at hr
  cases hw : waitLoop evs t rc with
  | none => rw [hw] at hr; simp at hr
  | some w =>
    obtain ⟨t1, rc1, n⟩ := w
    rw [hw] at hr
    simp only at hr
    have hrc1 : r.rc = rc1 ∧ r.waits = n := by
      split at hr
      · have := Option.some.inj hr
        rw [← this]; exact ⟨rfl, rfl⟩
      · have := Option.some.inj hr
        rw [← this]; exact ⟨rfl, rfl⟩
    rw [hrc1.1]
    exact waitLoop_rc_of_wait evs t rc t1 rc1 n hw k ev (hrc1.2 ▸ hk) hev hrc

theorem worker_rc_never_reset_witness :
    workerIteration oneState 0 ⟨0, 0⟩ ⟨0, 0⟩ [⟨[], 0⟩, ⟨[], 110⟩] (fixedClock ⟨0, 1000⟩) =
        some { timer := { oneState with cbe_changed_ := false }, rc := 0,
               tv := ⟨0, 2000000⟩, waits := 0, invoked := [] } ∧
      workerIteration { oneState with cbe_changed_ := false } 0 ⟨0, 0⟩ ⟨0, 0⟩
          [⟨[], 0⟩, ⟨[], 110⟩] (fixedClock ⟨0, 1000⟩) =
        some { timer := { oneState with cbe_changed_ := false }, rc := 110,
               tv := ⟨0, 2000000⟩, waits := 2, invoked := [] } ∧
      workerIteration { oneState with cbe_changed_ := false } 110 ⟨0, 0⟩ ⟨0, 0⟩
          [⟨[], 0⟩] (fixedClock ⟨0, 1000⟩) =
        some { timer := { oneState with cbe_changed_ := false }, rc := 110,
               tv := ⟨0, 2000000⟩, waits := 0, invoked := [] } ∧
      ∃ t2, workerRun [⟨⟨0, 0⟩, ⟨0, 0⟩, [⟨[], 0⟩], fixedClock ⟨0, 1000⟩, [Call.add entC]⟩,
          ⟨⟨0, 0⟩, ⟨0, 0⟩, [⟨[], 0⟩], fixedClock ⟨0, 1000⟩, []⟩]
          { oneState with cbe_changed_ := false } 110 = some (t2, 110, List.replicate 2 0) :=
  ⟨by decide, by decide,
    ((worker_rc_never_reset { oneState with cbe_changed_ := false } 110 ⟨0, 0⟩ ⟨0, 0⟩
      [⟨[], 0⟩] (fixedClock ⟨0, 1000⟩) []).1 (by decide)).trans (by decide),
    (worker_rc_never_reset { oneState with cbe_changed_ := false } 110 ⟨0, 0⟩ ⟨0, 0⟩ []
      (fixedClock ⟨0, 1000⟩)
      [⟨⟨0, 0⟩, ⟨0, 0⟩, [⟨[], 0⟩], fixedClock ⟨0, 1000⟩, [Call.add entC]⟩,
        ⟨⟨0, 0⟩, ⟨0, 0⟩, [⟨[], 0⟩], fixedClock ⟨0, 1000⟩, []⟩]).2.1 (by decide)⟩

/-! ### Deadlines that are not normalized, in the worker -/

theorem reachable_lateState : Reachable lateState :=
  Reachable.add _ entLate Reachable.start

theorem reachable_mixState : Reachable mixState :=
  Reachable.add _ entLate (Reachable.add _ entSoon Reachable.start)

/-- C10: a pass of `HandleCallbacks` invokes and removes an entity whose deadline is later
than `now`. The valid entity `entLate`, constructed at the normalized reading `0.6 s` with
900 ms, is due at `1.5 s` and is registered in the reachable scheduler `lateState`. The
worker first clears the changed flag; in its next iteration the wait returns a value that
is not zero and `HandleCallbacks` runs while the clock reads the normalized `1.0 s`: the
callback of `entLate` is invoked with its data, and `entLate` is removed from `cbe_set_`
and from `cbe_map_`, although `1.0 s` is before its deadline in total nanoseconds. The
stored deadline is `(0, 1_500_000_000)` and `LaterThan` compares the seconds first. -/
theorem handleCallbacks_fires_entity_not_yet_due :
    Reachable lateState ∧ Normalized ⟨0, 600000000⟩ ∧ Normalized ⟨1, 0⟩ ∧
      entLate.IsValid = true ∧ entLate ∈ lateState.cbe_set_ ∧
      totalNs entLate.deadline_ = totalNs ⟨0, 600000000⟩ + delayNs 900 0 ∧
      totalNs ⟨1, 0⟩ < totalNs entLate.deadline_ ∧
      workerIteration lateState 0 ⟨0, 700000000⟩ ⟨0, 700000000⟩ [] (fixedClock ⟨1, 0⟩) =
        some { timer := { lateState with cbe_changed_ := false }, rc := 0,
               tv := ⟨0, 1500000000⟩, waits := 0, invoked := [] } ∧
      workerIteration { lateState with cbe_changed_ := false } 0 ⟨1, 0⟩ ⟨1, 0⟩
          [⟨[], 22⟩] (fixedClock ⟨1, 0⟩) =
        some { timer := { cbe_set_ := [], cbe_map_ := [], cbe_changed_ := false }, rc := 22,
               tv := ⟨0, 1500000000⟩, waits := 1,
               invoked := [(entLate.callback_, entLate.data_)] } ∧
      (MxTimer.HandleCallbacks { lateState with cbe_changed_ := false }
          (fixedClock ⟨1, 0⟩)).2 = [(entLate.callback_, entLate.data_)] ∧
      entLate ∉ (MxTimer.HandleCallbacks { lateState with cbe_changed_ := false }
          (fixedClock ⟨1, 0⟩)).1.cbe_set_ ∧
      mapFind (MxTimer.HandleCallbacks { lateState with cbe_changed_ := false }
          (fixedClock ⟨1, 0⟩)).1.cbe_map_ entLate.callback_ = none :=
  ⟨reachable_lateState, by decide, by decide, by decide, by decide, by decide, by decide,
    by decide, by decide, by decide, by decide, by decide⟩

/-- C11: a pass of `HandleCallbacks` can invoke an entity before one of earlier deadline.
In the reachable scheduler `mixState` the valid entities `entSoon` (constructed at `0 s`
with 1000 ms, due at `1.0 s`) and `entLate` (constructed at `0.6 s` with 900 ms, due at
`1.5 s`) are registered; the set holds `entLate` before `entSoon`, because the stored
deadline `(0, 1_500_000_000)` is smaller as a pair than `(1, 0)`. Once the worker has
cleared the changed flag, the pass at `2 s` invokes the callback of `entLate` first and the
callback of `entSoon` second, although the deadline of `entLate` is the later one. -/
theorem handleCallbacks_fires_later_deadline_first :
    Reachable mixState ∧ entSoon.IsValid = true ∧ entLate.IsValid = true ∧
      (MxTimer.empty.AddCallback entSoon).1 = true ∧
      ((MxTimer.empty.AddCallback entSoon).2.AddCallback entLate).1 = true ∧
      mixState.cbe_set_ = [entLate, entSoon] ∧
      totalNs entSoon.deadline_ = totalNs ⟨0, 0⟩ + delayNs 1000 0 ∧
      totalNs entLate.deadline_ = totalNs ⟨0, 600000000⟩ + delayNs 900 0 ∧
      totalNs entSoon.deadline_ < totalNs entLate.deadline_ ∧
      workerIteration mixState 0 ⟨0, 700000000⟩ ⟨0, 700000000⟩ [] (fixedClock ⟨2, 0⟩) =
        some { timer := { mixState with cbe_changed_ := false }, rc := 0,
               tv := ⟨0, 1500000000⟩, waits := 0, invoked := [] } ∧
      workerIteration { mixState with cbe_changed_ := false } 0 ⟨2, 0⟩ ⟨2, 0⟩
          [⟨[], 22⟩] (fixedClock ⟨2, 0⟩) =
        some { timer := { cbe_set_ := [], cbe_map_ := [], cbe_changed_ := false }, rc := 22,
               tv := ⟨0, 1500000000⟩, waits := 1,
               invoked := [(entLate.callback_, entLate.data_),
                           (entSoon.callback_, entSoon.data_)] } ∧
      (MxTimer.HandleCallbacks { mixState with cbe_changed_ := false }
          (fixedClock ⟨2, 0⟩)).2 =
        [(entLate.callback_, entLate.data_), (entSoon.callback_, entSoon.data_)] :=
  ⟨reachable_mixState, by decide, by decide, by decide, by decide, by decide, by decide,
    by decide, by decide, by decide, by decide, by decide⟩

/-- C18: the wake time of the worker can be later than the deadline of an entity of the
set. In the reachable scheduler `mixState`, with the changed flag cleared by the worker,
`GetFirstCallbackEntity()` returns `entLate`, due at `1.5 s`, while `entSoon`, due at
`1.0 s`, is in the set: the front of the set is the smallest stored pair, and the deadline
`(0, 1_500_000_000)` of `entLate` is not normalized. The worker waits with the wake time
`(0, 1_500_000_000)`, which is after the deadline of `entSoon`. -/
theorem worker_wake_time_after_earlier_deadline :
    Reachable mixState ∧ entSoon.IsValid = true ∧ entLate.IsValid = true ∧
      entSoon ∈ mixState.cbe_set_ ∧ entLate ∈ mixState.cbe_set_ ∧
      MxTimer.GetFirstCallbackEntity { mixState with cbe_changed_ := false } ⟨0, 700000000⟩
        = entLate ∧
      totalNs entSoon.deadline_ < totalNs entLate.deadline_ ∧
      wakeTime { mixState with cbe_changed_ := false } ⟨0, 700000000⟩ ⟨0, 700000000⟩ =
        ⟨0, 1500000000⟩ ∧
      totalNs entSoon.deadline_ <
        totalNs (wakeTime { mixState with cbe_changed_ := false } ⟨0, 700000000⟩
          ⟨0, 700000000⟩) ∧
      workerIteration mixState 0 ⟨0, 700000000⟩ ⟨0, 700000000⟩ [] (fixedClock ⟨0, 0⟩) =
        some { timer := { mixState with cbe_changed_ := false }, rc := 0,
               tv := ⟨0, 1500000000⟩, waits := 0, invoked := [] } ∧
      (workerIteration { mixState with cbe_changed_ := false } 0 ⟨0, 700000000⟩
          ⟨0, 700000000⟩ [⟨[], 22⟩] (fixedClock ⟨0, 800000000⟩)).map (fun r => (r.tv, r.waits))
        = some (⟨0, 1500000000⟩, 1) :=
  ⟨reachable_mixState, by decide, by decide, by decide, by decide, by decide, by decide,
    by decide, by decide, by decide, by decide⟩

end Timer05
